import Mathlib

set_option maxRecDepth 100000

/-!
# Verification of the pino-api-logger write/rotation/maintenance engine

A shallow embedding of the TypeScript sources of `pino-api-logger`:

* the `FileWriter` buffered rotating writer (`src/file-writer.ts`),
* the filename / period utilities (`src/utilities.ts`),
* the archiver worker (`src/archiver-worker.ts`), retention worker
  (`src/retention-worker.ts`) and their coordinator gating
  (`src/registry.ts`, `src/archiver.ts`, `src/retention.ts`).

JavaScript strings are modelled as `List Char`; machine time is an `Int`
count of milliseconds since the Unix epoch; the process-local timezone is an
explicit offset `tz` in minutes east of UTC (JavaScript `Date` accessors such
as `getHours` read local fields, while `toISOString` reads UTC fields).  The
proleptic-Gregorian conversions behind `Date` are implemented from scratch
(`daysFromCivil` / `civilYear`-`civilMonth`-`civilDay`) and proved to be
mutually inverse, which is what the filename round-trip claims rest on.
The modelled year range is 0..9999 (the range `toISOString` prints as four
digits).
-/

/- ### Characters, digits, strings -/

/-- The decimal digit character for `n < 10` (a junk value otherwise). -/
def digitChar (n : Nat) : Char :=
  match n with
  | 0 => '0' | 1 => '1' | 2 => '2' | 3 => '3' | 4 => '4'
  | 5 => '5' | 6 => '6' | 7 => '7' | 8 => '8' | 9 => '9'
  | _ => '*'

/-- Numeric value of a decimal digit character (JavaScript `parseInt` on one char). -/
def digToInt (c : Char) : Int := (c.toNat : Int) - 48

/-- Fuel-driven decimal printer (structural, so that concrete names compute
by kernel reduction). -/
def natDigitsAux : Nat → Nat → List Char
  | 0, _ => []
  | fuel + 1, n =>
    if n < 10 then [digitChar n]
    else natDigitsAux fuel (n / 10) ++ [digitChar (n % 10)]

/-- Decimal representation of a natural number, as JavaScript `String(n)`. -/
def natDigits (n : Nat) : List Char := natDigitsAux (n + 1) n

/-- `String(n).padStart(2, "0")` for `0 ≤ n ≤ 99`, by digit extraction. -/
def pad2 (n : Int) : List Char :=
  [digitChar (n.toNat / 10 % 10), digitChar (n.toNat % 10)]

/-- `String(n).padStart(3, "0")` for `0 ≤ n ≤ 999`, by digit extraction. -/
def pad3 (n : Int) : List Char :=
  [digitChar (n.toNat / 100 % 10), digitChar (n.toNat / 10 % 10), digitChar (n.toNat % 10)]

/-- The four-digit year field of `toISOString`, for years 0..9999. -/
def pad4 (n : Int) : List Char :=
  [digitChar (n.toNat / 1000 % 10), digitChar (n.toNat / 100 % 10),
   digitChar (n.toNat / 10 % 10), digitChar (n.toNat % 10)]

/-- Value of two digit characters (`parseInt` of a `\d\d` capture). -/
def val2 (a b : Char) : Int := 10 * digToInt a + digToInt b

/-- Value of four digit characters (`parseInt` of a `\d\d\d\d` capture). -/
def val4 (a b c d : Char) : Int :=
  1000 * digToInt a + 100 * digToInt b + 10 * digToInt c + digToInt d

/-- JavaScript string comparison (`<` on strings, the `.sort()` order):
lexicographic on code units. -/
def strLt : List Char → List Char → Bool
  | [], [] => false
  | [], _ :: _ => true
  | _ :: _, [] => false
  | a :: as, b :: bs =>
    if a.toNat < b.toNat then true
    else if b.toNat < a.toNat then false
    else strLt as bs

/-- Does `cs` end with `suffix`? -/
def strEndsWith (cs suffix : List Char) : Bool :=
  decide (suffix.length ≤ cs.length) && cs.drop (cs.length - suffix.length) == suffix

/-- Does `cs` start with `prefix`? -/
def strStartsWith (cs pre : List Char) : Bool := cs.take pre.length == pre

/-- The characters of `".log"`. -/
def dotLog : List Char := ['.', 'l', 'o', 'g']

/-- The characters of `".tar.gz"`. -/
def dotTarGz : List Char := ['.', 't', 'a', 'r', '.', 'g', 'z']

/-- `filename.replace(/\.log$/, "")`. -/
def stripDotLog (cs : List Char) : List Char :=
  if strEndsWith cs dotLog then cs.take (cs.length - 4) else cs

/-- Insert into a list sorted descending by the JavaScript string order. -/
def insertDescStr (x : List Char) : List (List Char) → List (List Char)
  | [] => [x]
  | y :: ys => if strLt y x then x :: y :: ys else y :: insertDescStr x ys

/-- Sort a list of strings descending (models `.sort().reverse()`: newest
filename first). -/
def sortRevStrings (l : List (List Char)) : List (List Char) :=
  l.foldr insertDescStr []

/-- Insert into a list sorted ascending by the JavaScript string order. -/
def insertAscStr (x : List Char) : List (List Char) → List (List Char)
  | [] => [x]
  | y :: ys => if strLt x y then x :: y :: ys else y :: insertAscStr x ys

/-- Sort a list of strings ascending (models `Object.keys(...).sort()`). -/
def sortAscStrings (l : List (List Char)) : List (List Char) :=
  l.foldr insertAscStr []

/- ### Proleptic Gregorian calendar (the arithmetic behind JavaScript `Date`) -/

/-- Day count since 1970-01-01 of civil date `(y, m, d)` (proleptic Gregorian),
Hinnant's `days_from_civil`; day overflow behaves linearly in `d`, exactly
like JavaScript date normalization. -/
def daysFromCivil (y m d : Int) : Int :=
  let yAdj := y - (if m ≤ 2 then 1 else 0)
  let era := yAdj / 400
  let yoe := yAdj - era * 400
  let doy := (153 * (if m > 2 then m - 3 else m + 9) + 2) / 5 + d - 1
  let doe := yoe * 365 + yoe / 4 - yoe / 100 + doy
  era * 146097 + doe - 719468

/-- Days before year-of-era `y` inside a 400-year Gregorian era (March-based). -/
def dysOfEra (y : Int) : Int := 365 * y + y / 4 - y / 100

/-- 400-year era index of a day count. -/
def cfdEra (z : Int) : Int := (z + 719468) / 146097

/-- Day-of-era (0..146096) of a day count. -/
def cfdDoe (z : Int) : Int := z + 719468 - cfdEra z * 146097

/-- Year-of-era of a day count: the largest `y ≤ 399` whose first day is not
after the day-of-era. -/
def cfdYoe (z : Int) : Int :=
  (Nat.findGreatest (fun y => dysOfEra (y : Int) ≤ cfdDoe z) 399 : Nat)

/-- Day-of-year (March-based, 0..365) of a day count. -/
def cfdDoy (z : Int) : Int := cfdDoe z - dysOfEra (cfdYoe z)

/-- March-based month index (0..11) of a day count. -/
def cfdMp (z : Int) : Int := (5 * cfdDoy z + 2) / 153

/-- Calendar month (1..12) of a day count since the epoch. -/
def civilMonth (z : Int) : Int := if cfdMp z < 10 then cfdMp z + 3 else cfdMp z - 9

/-- Day of month (1..31) of a day count since the epoch. -/
def civilDay (z : Int) : Int := cfdDoy z - (153 * cfdMp z + 2) / 5 + 1

/-- Calendar year of a day count since the epoch. -/
def civilYear (z : Int) : Int :=
  cfdYoe z + cfdEra z * 400 + (if civilMonth z ≤ 2 then 1 else 0)

/- ### The JavaScript `Date` view of an epoch instant -/

/-- Milliseconds per day. -/
def msPerDay : Int := 86400000

/-- Day count since the epoch of an instant (floor). -/
def epochDays (t : Int) : Int := t / 86400000

/-- Millisecond of day of an instant. -/
def msOfDay (t : Int) : Int := t % 86400000

/-- The local-clock instant: `tz` is the local offset from UTC in minutes east. -/
def localMs (t tz : Int) : Int := t + tz * 60000

/-- `Date.prototype.getHours` (local hours). -/
def jsGetHours (t tz : Int) : Int := msOfDay (localMs t tz) / 3600000

/-- `Date.prototype.getMinutes`. -/
def jsGetMinutes (t tz : Int) : Int := msOfDay (localMs t tz) % 3600000 / 60000

/-- `Date.prototype.getSeconds`. -/
def jsGetSeconds (t tz : Int) : Int := msOfDay (localMs t tz) % 60000 / 1000

/-- `Date.prototype.getMilliseconds`. -/
def jsGetMilliseconds (t tz : Int) : Int := msOfDay (localMs t tz) % 1000

/-- `Date.prototype.getDay` (local day of week, 0 = Sunday; epoch day 0 was a
Thursday). -/
def jsGetDay (t tz : Int) : Int := (epochDays (localMs t tz) + 4) % 7

/-- `Date.prototype.getDate` (local day of month). -/
def jsGetDate (t tz : Int) : Int := civilDay (epochDays (localMs t tz))

/-- `Date.prototype.getMonth` (local month, 0-based as in JavaScript). -/
def jsGetMonth (t tz : Int) : Int := civilMonth (epochDays (localMs t tz)) - 1

/-- `Date.prototype.getFullYear` (local year). -/
def jsGetFullYear (t tz : Int) : Int := civilYear (epochDays (localMs t tz))

/-- `new Date(y, m0, d, h)` with local semantics and JavaScript normalization
of out-of-range fields (month index `m0` is 0-based).  Per ECMAScript
`MakeFullYear`, an integral year argument between 0 and 99 means
`1900 + year`. -/
def jsMakeDate (y m0 d h tz : Int) : Int :=
  let yFull := if 0 ≤ y ∧ y ≤ 99 then 1900 + y else y
  let ym := yFull * 12 + m0
  let yNorm := ym / 12
  let mNorm := ym % 12 + 1
  (daysFromCivil yNorm mNorm 1 + (d - 1)) * msPerDay + h * 3600000 - tz * 60000

/-- `d.setHours(h)`: replace the local hour field, keep the rest (normalizing). -/
def jsSetHours (t tz h : Int) : Int :=
  let lcl := localMs t tz
  epochDays lcl * msPerDay + h * 3600000 + msOfDay lcl % 3600000 - tz * 60000

/-- `d.setDate(d0)`: replace the local day-of-month field, keep the rest
(normalizing through month/year boundaries). -/
def jsSetDate (t tz d0 : Int) : Int :=
  let lcl := localMs t tz
  let days := epochDays lcl
  (daysFromCivil (civilYear days) (civilMonth days) 1 + (d0 - 1)) * msPerDay
    + msOfDay lcl - tz * 60000

/-- `d.setMonth(m0)`: replace the local month field (0-based, normalizing),
keeping the day-of-month (which may itself overflow into the next month,
exactly as in JavaScript). -/
def jsSetMonth (t tz m0 : Int) : Int :=
  let lcl := localMs t tz
  let days := epochDays lcl
  let ym := civilYear days * 12 + m0
  (daysFromCivil (ym / 12) (ym % 12 + 1) 1 + (civilDay days - 1)) * msPerDay
    + msOfDay lcl - tz * 60000

/-- `d.setFullYear(y)`: replace the local year field, keeping month and
day-of-month (Feb 29 may overflow to Mar 1, as in JavaScript). -/
def jsSetFullYear (t tz y : Int) : Int :=
  let lcl := localMs t tz
  let days := epochDays lcl
  (daysFromCivil y (civilMonth days) 1 + (civilDay days - 1)) * msPerDay
    + msOfDay lcl - tz * 60000

/-- `toISOString().slice(0, 10)`: the UTC `YYYY-MM-DD` of an instant. -/
def isoDateChars (t : Int) : List Char :=
  pad4 (civilYear (epochDays t)) ++ '-' :: pad2 (civilMonth (epochDays t))
    ++ '-' :: pad2 (civilDay (epochDays t))

/-- The UTC instant of civil fields, convenience constructor for test inputs. -/
def utcMs (y m d h mi s ms : Int) : Int :=
  daysFromCivil y m d * msPerDay + h * 3600000 + mi * 60000 + s * 1000 + ms

/-- Gregorian leap-year test. -/
def isLeapYear (y : Int) : Bool := (y % 4 == 0 && y % 100 != 0) || y % 400 == 0

/-- Number of days in a calendar month. -/
def daysInMonth (y m : Int) : Int :=
  if m = 2 then (if isLeapYear y then 29 else 28)
  else if m = 4 ∨ m = 6 ∨ m = 9 ∨ m = 11 then 30
  else 31

/- ### Configuration types (`src/types.ts`) -/

/-- Rotation frequency of the file writer. -/
inductive FileRotationFrequency | hourly | daily
deriving DecidableEq, Repr

/-- Archive frequency. -/
inductive ArchiveFrequency | hourly | daily | weekly | monthly
deriving DecidableEq, Repr

/-- Retention unit (`h`, `d`, `w`, `m`, `y`). -/
inductive RetentionUnit | h | d | w | m | y
deriving DecidableEq, Repr

/- ### Utilities (`src/utilities.ts`) -/

/-- Numeric value of a digit string (`parseInt` on an all-digit capture). -/
def valOfDigits (cs : List Char) : Int :=
  cs.foldl (fun acc c => acc * 10 + digToInt c) 0

/-- The retention unit denoted by one character, if any. -/
def retentionUnitOfChar (c : Char) : Option RetentionUnit :=
  if c = 'h' then some .h
  else if c = 'd' then some .d
  else if c = 'w' then some .w
  else if c = 'm' then some .m
  else if c = 'y' then some .y
  else none

/-- `parseRetention`: matches `^(\d+)([hdwmy])$`; the source throws on a
mismatch, modelled as `none`. -/
def parseRetention (cs : List Char) : Option (Int × RetentionUnit) :=
  match cs.getLast? with
  | none => none
  | some u =>
    match retentionUnitOfChar u with
    | none => none
    | some unit =>
      let ds := cs.dropLast
      if ds ≠ [] ∧ ds.all Char.isDigit then some (valOfDigits ds, unit) else none

/-- `getMondayOfWeek`: local day-of-week arithmetic via `setDate`, printed
back through `toISOString().slice(0, 10)`. -/
def getMondayOfWeek (t tz : Int) : List Char :=
  let day := jsGetDay t tz
  let diff := jsGetDate t tz - day + (if day = 0 then -6 else 1)
  isoDateChars (jsSetDate t tz diff)

/-- The characters of `"-archive"`. -/
def archiveTag : List Char := ['-', 'a', 'r', 'c', 'h', 'i', 'v', 'e']

/-- `getArchiveFilename period = period ++ "-archive.tar.gz"`. -/
def getArchiveFilename (period : List Char) : List Char :=
  period ++ archiveTag ++ dotTarGz

/-- `getFilePeriod`: extract the archive-granularity period of a log filename;
`none` models an unmatched regex or an invalid date. -/
def getFilePeriod (filename : List Char) (freq : ArchiveFrequency) (tz : Int) :
    Option (List Char) :=
  let baseName := stripDotLog filename
  match baseName with
  | y1 :: y2 :: y3 :: y4 :: '-' :: m1 :: m2 :: '-' :: d1 :: d2 :: rest =>
    if y1.isDigit && y2.isDigit && y3.isDigit && y4.isDigit
        && m1.isDigit && m2.isDigit && d1.isDigit && d2.isDigit then
      let y := val4 y1 y2 y3 y4
      let mo := val2 m1 m2
      let dy := val2 d1 d2
      let dateStr := [y1, y2, y3, y4, '-', m1, m2, '-', d1, d2]
      -- `new Date(dateStr)` on a date-only ISO string: UTC midnight, NaN when
      -- the calendar date does not exist
      if 1 ≤ mo ∧ mo ≤ 12 ∧ 1 ≤ dy ∧ dy ≤ daysInMonth y mo then
        match freq with
        | .hourly =>
          match rest with
          | '~' :: h1 :: h2 :: _ =>
            if h1.isDigit && h2.isDigit then some (dateStr ++ '~' :: [h1, h2])
            else some (dateStr ++ '~' :: ['0', '0'])
          | _ => some (dateStr ++ '~' :: ['0', '0'])
        | .daily => some dateStr
        | .weekly => some (getMondayOfWeek (daysFromCivil y mo dy * msPerDay) tz)
        | .monthly => some (dateStr.take 7)
      else none
    else none
  | _ => none

/-- `getCurrentPeriod`: the (incomplete) period containing `now`, which the
archiver must skip. -/
def getCurrentPeriod (now tz : Int) (freq : ArchiveFrequency) : List Char :=
  let dateStr := isoDateChars now
  match freq with
  | .hourly => dateStr ++ '~' :: pad2 (jsGetHours now tz)
  | .daily => dateStr
  | .weekly => getMondayOfWeek now tz
  | .monthly => dateStr.take 7

/-- `parseLogFilename`: recover the period-start instant of a rotation-file
name (`YYYY-MM-DD.log`, `YYYY-MM-DD~HH*.log`); the hour match is a prefix
match, the daily match is anchored.  The captured fields go through the local
`new Date(y, m-1, d, h)` constructor. -/
def parseLogFilename (cs : List Char) (tz : Int) : Option Int :=
  let b := stripDotLog cs
  match b with
  | y1 :: y2 :: y3 :: y4 :: '-' :: m1 :: m2 :: '-' :: d1 :: d2 :: rest =>
    if y1.isDigit && y2.isDigit && y3.isDigit && y4.isDigit
        && m1.isDigit && m2.isDigit && d1.isDigit && d2.isDigit then
      match rest with
      | '~' :: h1 :: h2 :: _ =>
        if h1.isDigit && h2.isDigit then
          some (jsMakeDate (val4 y1 y2 y3 y4) (val2 m1 m2 - 1) (val2 d1 d2)
            (val2 h1 h2) tz)
        else none
      | [] =>
        some (jsMakeDate (val4 y1 y2 y3 y4) (val2 m1 m2 - 1) (val2 d1 d2) 0 tz)
      | _ => none
    else none
  | _ => none

/-- the removal of a trailing `-archive(-\d+)?.tar.gz`. -/
def stripArchiveSuffix (cs : List Char) : List Char :=
  if strEndsWith cs dotTarGz then
    let u := cs.take (cs.length - 7)
    if strEndsWith u archiveTag then u.take (u.length - 8)
    else
      let revU := u.reverse
      let ds := revU.takeWhile Char.isDigit
      match revU.drop ds.length with
      | '-' :: v2 =>
        if ds ≠ [] ∧ strEndsWith v2.reverse archiveTag then
          (v2.reverse).take (v2.reverse.length - 8)
        else cs
      | _ => cs
  else cs

/-- `parseArchiveFilename`: recover the period-start instant of an archive
artifact name (`YYYY-MM-DD~HH-archive.tar.gz`, `YYYY-MM-DD-archive.tar.gz`,
`YYYY-MM-archive.tar.gz`, optionally with a `-<counter>`). -/
def parseArchiveFilename (cs : List Char) (tz : Int) : Option Int :=
  let b := stripArchiveSuffix cs
  match b with
  | [y1, y2, y3, y4, '-', m1, m2, '-', d1, d2, '~', h1, h2] =>
    if y1.isDigit && y2.isDigit && y3.isDigit && y4.isDigit
        && m1.isDigit && m2.isDigit && d1.isDigit && d2.isDigit
        && h1.isDigit && h2.isDigit then
      some (jsMakeDate (val4 y1 y2 y3 y4) (val2 m1 m2 - 1) (val2 d1 d2)
        (val2 h1 h2) tz)
    else none
  | [y1, y2, y3, y4, '-', m1, m2, '-', d1, d2] =>
    if y1.isDigit && y2.isDigit && y3.isDigit && y4.isDigit
        && m1.isDigit && m2.isDigit && d1.isDigit && d2.isDigit then
      some (jsMakeDate (val4 y1 y2 y3 y4) (val2 m1 m2 - 1) (val2 d1 d2) 0 tz)
    else none
  | [y1, y2, y3, y4, '-', m1, m2] =>
    if y1.isDigit && y2.isDigit && y3.isDigit && y4.isDigit
        && m1.isDigit && m2.isDigit then
      some (jsMakeDate (val4 y1 y2 y3 y4) (val2 m1 m2 - 1) 1 0 tz)
    else none
  | _ => none

/-- `getCutoffDate now value unit = now` minus the retention span: fixed
spans for hour/day/week, calendar-aware arithmetic for month/year. -/
def getCutoffDate (now tz value : Int) (unit : RetentionUnit) : Int :=
  match unit with
  | .h => jsSetHours now tz (jsGetHours now tz - value)
  | .d => jsSetDate now tz (jsGetDate now tz - value)
  | .w => jsSetDate now tz (jsGetDate now tz - value * 7)
  | .m => jsSetMonth now tz (jsGetMonth now tz - value)
  | .y => jsSetFullYear now tz (jsGetFullYear now tz - value)

/- ### Archiver worker (`src/archiver-worker.ts`) -/

/-- The `.log` entries of a directory listing. -/
def logFilesOf (files : List (List Char)) : List (List Char) :=
  files.filter (fun f => strEndsWith f dotLog)

/-- Is a file grouped for archiving in a run at `now`?  The worker skips files
whose name yields no period and files of the current period (a string
equality test, not an order comparison). -/
def archiveFileEligible (f : List Char) (now tz : Int) (freq : ArchiveFrequency) : Bool :=
  match getFilePeriod f freq tz with
  | some p => p != getCurrentPeriod now tz freq
  | none => false

/-- First-occurrence deduplication (JavaScript object keys keep insertion
order). -/
def dedupStr (l : List (List Char)) : List (List Char) :=
  l.foldl (fun acc p => if acc.contains p then acc else acc ++ [p]) []

/-- The sorted list of periods one archiver run processes. -/
def archivePeriodsOf (files : List (List Char)) (now tz : Int)
    (freq : ArchiveFrequency) : List (List Char) :=
  sortAscStrings (dedupStr ((logFilesOf files).filterMap (fun f =>
    match getFilePeriod f freq tz with
    | some p => if p != getCurrentPeriod now tz freq then some p else none
    | none => none)))

/-- The files grouped under one period. -/
def periodFiles (files : List (List Char)) (p : List Char)
    (freq : ArchiveFrequency) (tz : Int) : List (List Char) :=
  (logFilesOf files).filter (fun f =>
    match getFilePeriod f freq tz with
    | some q => q == p
    | none => false)

/-- One run's period groups, in the order they are archived. -/
def archiverRunGroups (files : List (List Char)) (now tz : Int)
    (freq : ArchiveFrequency) : List (List Char × List (List Char)) :=
  (archivePeriodsOf files now tz freq).map
    (fun p => (p, periodFiles files p freq tz))

/-- The files a failure-free archiver run compresses and deletes. -/
def archiverRunArchivedFiles (files : List (List Char)) (now tz : Int)
    (freq : ArchiveFrequency) : List (List Char) :=
  (archiverRunGroups files now tz freq).flatMap Prod.snd

/-- The per-period loop with a compression oracle: all statements of the loop
live in one `try` whose `catch` sits outside the loop, so the first failing
period aborts the remainder of the sweep. -/
def runArchiverPeriods (periods : List (List Char))
    (compressOk : List Char → Bool) : List (List Char) :=
  match periods with
  | [] => []
  | p :: ps => if compressOk p then p :: runArchiverPeriods ps compressOk else []

/-- The periods actually archived by one run, given which compressions
succeed. -/
def archiverRunArchivedPeriods (files : List (List Char)) (now tz : Int)
    (freq : ArchiveFrequency) (compressOk : List Char → Bool) : List (List Char) :=
  runArchiverPeriods (archivePeriodsOf files now tz freq) compressOk

/- ### Retention worker (`src/retention-worker.ts`) -/

/-- The log files one retention run deletes: parseable names strictly older
than the cutoff (per-file delete failures do not affect selection). -/
def retentionDeletedLogs (dirFiles : List (List Char)) (now tz value : Int)
    (unit : RetentionUnit) : List (List Char) :=
  (dirFiles.filter (fun f => strEndsWith f dotLog)).filter (fun f =>
    match parseLogFilename f tz with
    | some d => decide (d < getCutoffDate now tz value unit)
    | none => false)

/-- The archive artifacts one retention run deletes. -/
def retentionDeletedArchives (archiveFiles : List (List Char)) (now tz value : Int)
    (unit : RetentionUnit) : List (List Char) :=
  (archiveFiles.filter (fun f => strEndsWith f dotTarGz)).filter (fun f =>
    match parseArchiveFilename f tz with
    | some d => decide (d < getCutoffDate now tz value unit)
    | none => false)

/-- `runRetentionWorker`: nothing is deleted without a configured, parseable
retention period (a parse error throws into the sweep-level catch). -/
def runRetentionWorkerDeleted (retention : Option (List Char))
    (dirFiles archiveFiles : List (List Char)) (now tz : Int) :
    List (List Char) × List (List Char) :=
  match retention with
  | none => ([], [])
  | some r =>
    match parseRetention r with
    | none => ([], [])
    | some (v, u) =>
      (retentionDeletedLogs dirFiles now tz v u,
       retentionDeletedArchives archiveFiles now tz v u)

/- ### Coordinator election (`src/registry.ts`) -/

/-- `isCoordinator`: the primary process and any non-cluster process report
`true` unconditionally; a cluster worker reports its local registry entry. -/
def isCoordinatorJs (isPrimary isWorker hasRegistryEntry : Bool) : Bool :=
  if isPrimary then true
  else if !isWorker then true
  else hasRegistryEntry

/-- Staleness threshold of the coordinator lock (30 s). -/
def coordStaleMs : Int := 30000

/-- Shared state of `n` cluster workers competing for one log directory:
the on-disk lock marker (owner and mtime) and each worker's in-process
`coordinatorRegistry` membership. -/
structure CoordState (n : Nat) where
  lock : Option (Fin n × Int)
  owned : Fin n → Bool

/-- The state before any worker has claimed. -/
def CoordState.init (n : Nat) : CoordState n := ⟨none, fun _ => false⟩

/-- `tryClaimCoordinator` for worker `i` at time `now`: an existing stale
marker is removed, then an atomic `mkdir` either wins (start heartbeat,
record the registry entry) or loses. -/
def tryClaimCoordinator (s : CoordState n) (i : Fin n) (now : Int) :
    Bool × CoordState n :=
  if s.owned i then (true, s)
  else
    let s1 : CoordState n :=
      match s.lock with
      | some (_, mt) => if now - mt > coordStaleMs then { s with lock := none } else s
      | none => s
    match s1.lock with
    | none =>
      (true, { lock := some (i, now), owned := fun j => if j = i then true else s.owned j })
    | some _ => (false, s1)

/-- `releaseCoordinator` for worker `i`: clears its registry entry and removes
the marker (the removal is unconditional in the source). -/
def releaseCoordinator (s : CoordState n) (i : Fin n) : CoordState n :=
  { lock := none, owned := fun j => if j = i then false else s.owned j }

/-- The heartbeat of worker `i`: touches the marker's mtime while the worker
holds a registry entry. -/
def heartbeatCoordinator (s : CoordState n) (i : Fin n) (now : Int) : CoordState n :=
  if s.owned i then
    { s with lock := match s.lock with
        | some (j, _) => some (j, now)
        | none => none }
  else s

/-- Worker `i` dies: its registry entry vanishes, the marker stays with its
last mtime. -/
def crashCoordinator (s : CoordState n) (i : Fin n) : CoordState n :=
  { s with owned := fun j => if j = i then false else s.owned j }

/-- One step of the coordinator protocol under the heartbeat discipline: a
claim may only be scheduled at a time when no live owner's marker looks stale
(heartbeats every 10 s against a 30 s threshold guarantee this), and releases
are issued by owners. -/
inductive CoordStep {n : Nat} : CoordState n → CoordState n → Prop
  | claim (s : CoordState n) (i : Fin n) (now : Int)
      (hfresh : ∀ j mt, s.lock = some (j, mt) → s.owned j = true →
        now - mt ≤ coordStaleMs) :
      CoordStep s (tryClaimCoordinator s i now).2
  | release (s : CoordState n) (i : Fin n) (hown : s.owned i = true) :
      CoordStep s (releaseCoordinator s i)
  | heartbeat (s : CoordState n) (i : Fin n) (now : Int) :
      CoordStep s (heartbeatCoordinator s i now)
  | crash (s : CoordState n) (i : Fin n) :
      CoordStep s (crashCoordinator s i)

/-- States reachable from the unclaimed initial state. -/
inductive CoordReach {n : Nat} : CoordState n → Prop
  | init : CoordReach (CoordState.init n)
  | step {s s' : CoordState n} : CoordReach s → CoordStep s s' → CoordReach s'

/-- The registry/lock invariant: a worker with a registry entry owns the
marker. -/
def CoordInv (s : CoordState n) : Prop :=
  ∀ i : Fin n, s.owned i = true → ∃ mt, s.lock = some (i, mt)

/- ### Scheduler gating (`src/archiver.ts`, `src/retention.ts`) -/

/-- The coordinator statuses observed at each archiver-worker spawn of one
`startArchiver` lifetime: the run-on-creation spawn is unconditional, while a
cron tick spawns the worker only when `isCoordinator` is true at the tick. -/
def startArchiverInvocations (runOnCreation coordAtCreation : Bool)
    (ticksCoord : List Bool) : List Bool :=
  (if runOnCreation then [coordAtCreation] else []) ++ ticksCoord.filter (fun c => c)

/-- The coordinator statuses observed at each retention-worker spawn:
`runRetentionWorker` itself returns early when not coordinator, so both the
on-creation run and every scheduled run are gated. -/
def startRetentionInvocations (configured coordAtCreation : Bool)
    (ticksCoord : List Bool) : List Bool :=
  if configured then (coordAtCreation :: ticksCoord).filter (fun c => c) else []

/- ### The buffered rotating writer (`src/file-writer.ts`) -/

/-- `Buffer.byteLength(line, "utf8")`. -/
def utf8Len (cs : List Char) : Int := ((cs.map Char.utf8Size).sum : Nat)

/-- `msg.endsWith("\n") ? msg : msg + "\n"`. -/
def ensureNewline (msg : List Char) : List Char :=
  if strEndsWith msg ['\n'] then msg else msg ++ ['\n']

/-- Total byte size of a list of lines. -/
def linesBytes (ls : List (List Char)) : Int := (ls.map utf8Len).sum

/-- Concatenation of buffered lines (`this.buffer.join("")`). -/
def joinLines (ls : List (List Char)) : List Char := ls.foldr (· ++ ·) []

/-- The log directory contents: file name to appended byte content. -/
abbrev FsDir := List (List Char × List Char)

/-- Names present in the directory (`readdirSync`). -/
def fsNames (fs : FsDir) : List (List Char) := fs.map Prod.fst

/-- Content of a file, `none` when absent (`statSync` failing). -/
def fsLookup : FsDir → List Char → Option (List Char)
  | [], _ => none
  | e :: es, name => if e.1 = name then some e.2 else fsLookup es name

/-- On-disk size of a file (0 when absent, as the writer's fallbacks do). -/
def fsSizeOf (fs : FsDir) (name : List Char) : Int :=
  match fsLookup fs name with
  | some c => utf8Len c
  | none => 0

/-- Append bytes to a file (creating it when absent). -/
def fsAppend : FsDir → List Char → List Char → FsDir
  | [], name, chunk => [(name, chunk)]
  | e :: es, name, chunk =>
    if e.1 = name then (e.1, e.2 ++ chunk) :: es else e :: fsAppend es name chunk

/-- Create an empty file when absent (`createWriteStream` with append flags). -/
def fsEnsure : FsDir → List Char → FsDir
  | [], name => [(name, [])]
  | e :: es, name => if e.1 = name then e :: es else e :: fsEnsure es name

/-- The writer state.  The model is single-process and synchronous: each
source `await` completes before the next caller runs, so a rotation started
by `write` finishes inside that call; the rotation lock of the source is
then always acquired.  `rotationFrequency` and the timezone are fixed
parameters of the operations; `updateOptions` is outside the modelled
claims. -/
@[ext]
structure WriterState where
  files : FsDir
  buffer : List (List Char)
  bufferBytes : Int
  bytesWritten : Int
  currentPeriod : List Char
  currentFilePath : List Char
  streamOpen : Bool
  isEnabled : Bool
  isClosed : Bool
  isFlushing : Bool
  isRotating : Bool
  pendingWrites : List (List Char)
  maxBufferLines : Int
  maxBufferBytes : Int
  maxLogSizeBytes : Int

/-- `getPeriodString`: UTC date (from `toISOString`) plus, when hourly, the
local hour (from `getHours`). -/
def FileWriter.getPeriodString (now tz : Int) (freq : FileRotationFrequency) :
    List Char :=
  let date := isoDateChars now
  match freq with
  | .hourly => date ++ '~' :: pad2 (jsGetHours now tz)
  | .daily => date

/-- `getLogPath` (the directory prefix is implicit in the model). -/
def FileWriter.getLogPath (period : List Char) : List Char := period ++ dotLog

/-- The `k`-th candidate of `generateOverflowCandidates`: the plain timestamp
name, then the `~<mmm>` millisecond variant, then `~<mmm>~<counter>`. -/
def FileWriter.overflowCandidate (now tz : Int) (k : Nat) : List Char :=
  let date := isoDateChars now
  let hh := pad2 (jsGetHours now tz)
  let mm := pad2 (jsGetMinutes now tz)
  let ss := pad2 (jsGetSeconds now tz)
  let ms := pad3 (jsGetMilliseconds now tz)
  let baseName := date ++ '~' :: hh ++ '-' :: mm ++ '-' :: ss
  match k with
  | 0 => baseName ++ dotLog
  | 1 => baseName ++ '~' :: ms ++ dotLog
  | Nat.succ (Nat.succ j) => baseName ++ '~' :: ms ++ '~' :: natDigits (j + 1) ++ dotLog

/-- `getOverflowLogPathSync`: the first candidate that does not yet exist.
At most `|files|` candidates can collide, so scanning `|files| + 2` indices
always finds one; the fallback index is unreachable. -/
def FileWriter.getOverflowLogPathSync (fs : FsDir) (now tz : Int) : List Char :=
  let names := fsNames fs
  match (List.range (names.length + 2)).find?
      (fun k => !(names.contains (FileWriter.overflowCandidate now tz k))) with
  | some k => FileWriter.overflowCandidate now tz k
  | none => FileWriter.overflowCandidate now tz (names.length + 2)

/-- `getOverflowPattern` as a filename test: for hourly periods
`^<date>~<hour>-\d\d-\d\d` then anything ending in `.log`; for daily periods
`^<period>~\d\d-\d\d-\d\d` then anything ending in `.log`. -/
def FileWriter.isOverflowName (freq : FileRotationFrequency)
    (period name : List Char) : Bool :=
  match freq with
  | .hourly =>
    let date := period.takeWhile (fun c => c ≠ '~')
    let hour := (period.dropWhile (fun c => c ≠ '~')).drop 1
    strStartsWith name (date ++ '~' :: hour ++ ['-']) &&
    (match name.drop (date.length + 1 + hour.length + 1) with
     | a :: b :: '-' :: c :: d :: rest =>
       a.isDigit && b.isDigit && c.isDigit && d.isDigit && strEndsWith rest dotLog
     | _ => false)
  | .daily =>
    strStartsWith name (period ++ ['~']) &&
    (match name.drop (period.length + 1) with
     | a :: b :: '-' :: c :: d :: '-' :: e :: f :: rest =>
       a.isDigit && b.isDigit && c.isDigit && d.isDigit && e.isDigit && f.isDigit
         && strEndsWith rest dotLog
     | _ => false)

/-- `findAvailableLogPath`: prefer the primary file of the current period
when it has spare capacity (unless excluded by a size rotation), then the
newest existing overflow file with spare capacity, then a fresh overflow
name. -/
def FileWriter.findAvailableLogPath (st : WriterState) (excludeCurrentFile : Bool)
    (now tz : Int) (freq : FileRotationFrequency) : List Char :=
  let mainLogPath := FileWriter.getLogPath st.currentPeriod
  let isCurrentFileMainLog := st.currentFilePath = mainLogPath
  let tryMain : Option (List Char) :=
    if excludeCurrentFile ∧ isCurrentFileMainLog then none
    else
      match fsLookup st.files mainLogPath with
      | none => some mainLogPath
      | some content =>
        if utf8Len content < st.maxLogSizeBytes then some mainLogPath else none
  match tryMain with
  | some p => p
  | none =>
    let overflowFiles := sortRevStrings ((fsNames st.files).filter
      (fun f => FileWriter.isOverflowName freq st.currentPeriod f))
    match overflowFiles.find? (fun f =>
        (!(excludeCurrentFile && f == st.currentFilePath))
          && decide (fsSizeOf st.files f < st.maxLogSizeBytes)) with
    | some p => p
    | none => FileWriter.getOverflowLogPathSync st.files now tz

/-- `openStream`: record the path, initialize `bytesWritten` from the on-disk
size (`statSync` before the stream creates the file), open the stream. -/
def FileWriter.openStream (st : WriterState) (filepath : List Char) : WriterState :=
  if ¬ st.isEnabled then st
  else
    let bw :=
      match fsLookup st.files filepath with
      | some c => utf8Len c
      | none => 0
    { st with currentFilePath := filepath, bytesWritten := bw, streamOpen := true,
              files := fsEnsure st.files filepath }

/-- The unconditional tail of `flushBuffer`: join the buffer, append it to the
current stream's file, clear the buffer. -/
def FileWriter.flushChunk (st : WriterState) : WriterState :=
  { st with buffer := [], bufferBytes := 0,
            files := fsAppend st.files st.currentFilePath (joinLines st.buffer) }

/-- `flushBuffer` as called while a rotation is in flight (`isRotating` set):
the multi-process size check is skipped. -/
def FileWriter.flushBufferRotating (st : WriterState) : WriterState :=
  if ¬ st.streamOpen ∨ ¬ st.isEnabled then { st with buffer := [], bufferBytes := 0 }
  else FileWriter.flushChunk st

/-- `rotateStream` (the single-process model always wins the rotation lock):
flush the buffer to the outgoing file unless told not to, recompute the
period, pick the next path, open it. -/
def FileWriter.rotateStream (st : WriterState) (skipFlush dueToSize : Bool)
    (now tz : Int) (freq : FileRotationFrequency) : WriterState :=
  let st1 :=
    if ¬ skipFlush ∧ st.buffer ≠ [] then FileWriter.flushBufferRotating st else st
  let st2 := { st1 with currentPeriod := FileWriter.getPeriodString now tz freq }
  let newPath := FileWriter.findAvailableLogPath st2 dueToSize now tz freq
  FileWriter.openStream st2 newPath

/-- `flushBuffer`: clear-and-return when disabled or streamless; otherwise
re-check the actual on-disk size (peers may have filled the file) and rotate
away without flushing if it is at the limit; then write the joined buffer. -/
def FileWriter.flushBuffer (st : WriterState) (now tz : Int)
    (freq : FileRotationFrequency) : WriterState :=
  if ¬ st.streamOpen ∨ ¬ st.isEnabled then { st with buffer := [], bufferBytes := 0 }
  else
    let st1 :=
      if ¬ st.isRotating ∧ fsSizeOf st.files st.currentFilePath ≥ st.maxLogSizeBytes
      then FileWriter.rotateStream st true true now tz freq
      else st
    FileWriter.flushChunk st1

/-- `flushIfNeeded`: skip when empty or already flushing. -/
def FileWriter.flushIfNeeded (st : WriterState) (now tz : Int)
    (freq : FileRotationFrequency) : WriterState :=
  if st.buffer = [] then st
  else if st.isFlushing then st
  else FileWriter.flushBuffer st now tz freq

/-- `processPendingWrites`: move the rotation-time queue into the buffer in
order, then flush if over a threshold. -/
def FileWriter.processPendingWrites (st : WriterState) (now tz : Int)
    (freq : FileRotationFrequency) : WriterState :=
  if st.pendingWrites = [] then st
  else
    let st1 := st.pendingWrites.foldl (fun s line =>
      { s with bytesWritten := s.bytesWritten + utf8Len line,
               buffer := s.buffer ++ [line],
               bufferBytes := s.bufferBytes + utf8Len line }) st
    let st2 := { st1 with pendingWrites := [] }
    if (st2.buffer.length : Int) ≥ st2.maxBufferLines
        ∨ st2.bufferBytes ≥ st2.maxBufferBytes
    then FileWriter.flushIfNeeded st2 now tz freq
    else st2

/-- `write`: no-op when disabled/streamless; queue during rotation; otherwise
check the rotation trigger (period change or prospective size overflow) and
either rotate (the triggering line goes through the pending queue to the new
file) or buffer the line and flush past a threshold. -/
def FileWriter.write (st : WriterState) (msg : List Char) (now tz : Int)
    (freq : FileRotationFrequency) : WriterState :=
  if ¬ st.isEnabled ∨ ¬ st.streamOpen then st
  else
    let line := ensureNewline msg
    if st.isRotating then { st with pendingWrites := st.pendingWrites ++ [line] }
    else
      let lineBytes := utf8Len line
      let cp := FileWriter.getPeriodString now tz freq
      let wouldExceedSize := st.bytesWritten + lineBytes ≥ st.maxLogSizeBytes
      if cp ≠ st.currentPeriod ∨ wouldExceedSize then
        let st1 := { st with isRotating := true,
                             pendingWrites := st.pendingWrites ++ [line] }
        let st2 := FileWriter.rotateStream st1 false wouldExceedSize now tz freq
        let st3 := FileWriter.processPendingWrites st2 now tz freq
        { st3 with isRotating := false }
      else
        let st1 := { st with bytesWritten := st.bytesWritten + lineBytes,
                             buffer := st.buffer ++ [line],
                             bufferBytes := st.bufferBytes + lineBytes }
        if (st1.buffer.length : Int) ≥ st1.maxBufferLines
            ∨ st1.bufferBytes ≥ st1.maxBufferBytes
        then FileWriter.flushIfNeeded st1 now tz freq
        else st1

/-- A sequence of `write` calls at one instant. -/
def FileWriter.writeMany (st : WriterState) (msgs : List (List Char))
    (now tz : Int) (freq : FileRotationFrequency) : WriterState :=
  msgs.foldl (fun s m => FileWriter.write s m now tz freq) st

/-- `close`: idempotent; drain the pending queue, flush, end the stream. -/
def FileWriter.close (st : WriterState) (now tz : Int)
    (freq : FileRotationFrequency) : WriterState :=
  if st.isClosed then st
  else
    let st1 := { st with isClosed := true }
    let st2 := FileWriter.processPendingWrites st1 now tz freq
    FileWriter.flushBuffer st2 now tz freq

/- ### Period-start instants (the values the round-trip claims recover) -/

/-- Start of the UTC day containing `t`. -/
def dayStartMs (t : Int) : Int := epochDays t * msPerDay

/-- Start of the UTC hour containing `t`. -/
def hourStartMs (t : Int) : Int := t / 3600000 * 3600000

/-- Start (UTC midnight) of the Monday of the week containing `t`. -/
def mondayStartMs (t : Int) : Int :=
  let days := epochDays t
  let dow := (days + 4) % 7
  (days - dow + (if dow = 0 then -6 else 1)) * msPerDay

/-- Start (UTC midnight) of the first day of the month containing `t`. -/
def monthStartMs (t : Int) : Int :=
  daysFromCivil (civilYear (epochDays t)) (civilMonth (epochDays t)) 1 * msPerDay

/-- Start of the rotation period of `t` (UTC clock). -/
def rotPeriodStart (t : Int) (freq : FileRotationFrequency) : Int :=
  match freq with
  | .daily => dayStartMs t
  | .hourly => hourStartMs t

/-- Start of the archive period of `t` (UTC clock). -/
def archPeriodStart (t : Int) (freq : ArchiveFrequency) : Int :=
  match freq with
  | .hourly => hourStartMs t
  | .daily => dayStartMs t
  | .weekly => mondayStartMs t
  | .monthly => monthStartMs t

/- ### Calendar lemmas -/

theorem cfdDoe_bounds (z : Int) : 0 ≤ cfdDoe z ∧ cfdDoe z ≤ 146096 := by
  unfold cfdDoe cfdEra; omega

theorem cfdYoe_bounds (z : Int) : 0 ≤ cfdYoe z ∧ cfdYoe z ≤ 399 := by
  unfold cfdYoe
  have h := Nat.findGreatest_le (P := fun y => dysOfEra (y : Int) ≤ cfdDoe z) 399
  omega

theorem dysOfEra_cfdYoe_le (z : Int) : dysOfEra (cfdYoe z) ≤ cfdDoe z := by
  have h0 : dysOfEra ((0 : Nat) : Int) ≤ cfdDoe z := by
    have := cfdDoe_bounds z
    unfold dysOfEra; omega
  have := Nat.findGreatest_spec (P := fun y => dysOfEra (y : Int) ≤ cfdDoe z)
    (Nat.zero_le 399) h0
  unfold cfdYoe
  exact this

theorem cfdDoe_lt_dysOfEra_succ (z : Int) (h : cfdYoe z < 399) :
    cfdDoe z < dysOfEra (cfdYoe z + 1) := by
  have hk : cfdYoe z =
      ((Nat.findGreatest (fun y => dysOfEra (y : Int) ≤ cfdDoe z) 399 : Nat) : Int) := rfl
  have hklt : Nat.findGreatest (fun y => dysOfEra (y : Int) ≤ cfdDoe z) 399 + 1 ≤ 399 := by
    omega
  have hgr := Nat.findGreatest_is_greatest
    (P := fun y => dysOfEra (y : Int) ≤ cfdDoe z)
    (Nat.lt_succ_self _) hklt
  simp only [not_le] at hgr
  rw [hk]
  have hcast :
      ((Nat.findGreatest (fun y => dysOfEra (y : Int) ≤ cfdDoe z) 399 + 1 : Nat) : Int)
      = ((Nat.findGreatest (fun y => dysOfEra (y : Int) ≤ cfdDoe z) 399 : Nat) : Int) + 1 := by
    push_cast; ring
  rw [hcast] at hgr
  exact hgr

theorem cfdDoy_bounds (z : Int) : 0 ≤ cfdDoy z ∧ cfdDoy z ≤ 365 := by
  have hle := dysOfEra_cfdYoe_le z
  have hdoe := cfdDoe_bounds z
  have hyoe := cfdYoe_bounds z
  have hdef : cfdDoy z = cfdDoe z - dysOfEra (cfdYoe z) := rfl
  constructor
  · omega
  · by_cases h399 : cfdYoe z = 399
    · have h145731 : dysOfEra 399 = 145731 := by decide
      rw [h399] at hdef
      omega
    · have hlt : cfdYoe z < 399 := lt_of_le_of_ne hyoe.2 h399
      have hsucc := cfdDoe_lt_dysOfEra_succ z hlt
      have hjump : dysOfEra (cfdYoe z + 1) ≤ dysOfEra (cfdYoe z) + 366 := by
        unfold dysOfEra; omega
      omega

theorem cfdMp_bounds (z : Int) : 0 ≤ cfdMp z ∧ cfdMp z ≤ 11 := by
  have h := cfdDoy_bounds z
  have hdef : cfdMp z = (5 * cfdDoy z + 2) / 153 := rfl
  omega

theorem civilMonth_bounds (z : Int) : 1 ≤ civilMonth z ∧ civilMonth z ≤ 12 := by
  have h := cfdMp_bounds z
  unfold civilMonth; split <;> omega

theorem civilDay_bounds (z : Int) : 1 ≤ civilDay z ∧ civilDay z ≤ 31 := by
  have h := cfdMp_bounds z
  have h2 := cfdDoy_bounds z
  have hdef : cfdMp z = (5 * cfdDoy z + 2) / 153 := rfl
  unfold civilDay; omega

/-- Recomposition of `daysFromCivil` applied to an era/year-of-era
decomposition. -/
theorem daysFromCivil_of_era_yoe (era yoe m d : Int) (hyoe : 0 ≤ yoe ∧ yoe ≤ 399) :
    daysFromCivil (yoe + era * 400 + (if m ≤ 2 then 1 else 0)) m d
      = era * 146097 + (yoe * 365 + yoe / 4 - yoe / 100
          + ((153 * (if m > 2 then m - 3 else m + 9) + 2) / 5 + d - 1)) - 719468 := by
  have hq : (yoe + era * 400) / 400 = era := by omega
  simp only [daysFromCivil]
  by_cases h2 : m ≤ 2
  · rw [if_pos h2]
    rw [show yoe + era * 400 + 1 - 1 = yoe + era * 400 from by ring, hq]
    rw [show yoe + era * 400 - era * 400 = yoe from by ring]
  · rw [if_neg h2]
    rw [show yoe + era * 400 + 0 - 0 = yoe + era * 400 from by ring, hq]
    rw [show yoe + era * 400 - era * 400 = yoe from by ring]

/-- The month selector of `daysFromCivil` inverts the month construction. -/
theorem civilMonth_sel (z : Int) :
    (if civilMonth z > 2 then civilMonth z - 3 else civilMonth z + 9) = cfdMp z := by
  have hmp := cfdMp_bounds z
  unfold civilMonth
  by_cases hc : cfdMp z < 10
  · rw [if_pos hc, if_pos (by omega : cfdMp z + 3 > 2)]; ring
  · rw [if_neg hc, if_neg (by omega : ¬ cfdMp z - 9 > 2)]; ring

/-- Rebuilding the day count from its civil fields recovers it. -/
theorem daysFromCivil_civilFromDays (z : Int) :
    daysFromCivil (civilYear z) (civilMonth z) (civilDay z) = z := by
  have hyoe := cfdYoe_bounds z
  have hdoe := cfdDoe_bounds z
  have hdys : cfdDoy z = cfdDoe z - (365 * cfdYoe z + cfdYoe z / 4 - cfdYoe z / 100) := rfl
  have hdoe2 : cfdDoe z = z + 719468 - cfdEra z * 146097 := rfl
  have hD : civilDay z = cfdDoy z - (153 * cfdMp z + 2) / 5 + 1 := rfl
  have hY : civilYear z
      = cfdYoe z + cfdEra z * 400 + (if civilMonth z ≤ 2 then 1 else 0) := rfl
  rw [hY, daysFromCivil_of_era_yoe _ _ _ _ hyoe, civilMonth_sel, hD]
  omega

/-- `daysFromCivil` is linear in the day argument. -/
theorem daysFromCivil_day_linear (y m d : Int) :
    daysFromCivil y m d = daysFromCivil y m 1 + (d - 1) := by
  simp only [daysFromCivil]
  split_ifs <;> ring

/- ### Digit lemmas -/

theorem digToInt_digitChar (k : Nat) (h : k < 10) :
    digToInt (digitChar k) = (k : Int) := by
  interval_cases k <;> rfl

theorem isDigit_digitChar (k : Nat) (h : k < 10) :
    (digitChar k).isDigit = true := by
  interval_cases k <;> rfl

theorem val2_pad2 (n : Int) (h0 : 0 ≤ n) (h99 : n ≤ 99) :
    val2 (digitChar (n.toNat / 10 % 10)) (digitChar (n.toNat % 10)) = n := by
  unfold val2
  rw [digToInt_digitChar _ (by omega), digToInt_digitChar _ (by omega)]
  omega

theorem val4_pad4 (n : Int) (h0 : 0 ≤ n) (h99 : n ≤ 9999) :
    val4 (digitChar (n.toNat / 1000 % 10)) (digitChar (n.toNat / 100 % 10))
      (digitChar (n.toNat / 10 % 10)) (digitChar (n.toNat % 10)) = n := by
  unfold val4
  rw [digToInt_digitChar _ (by omega), digToInt_digitChar _ (by omega),
      digToInt_digitChar _ (by omega), digToInt_digitChar _ (by omega)]
  omega

theorem natDigitsAux_fuel (f1 : Nat) : ∀ f2 n, n < f1 → n < f2 →
    natDigitsAux f1 n = natDigitsAux f2 n := by
  induction f1 with
  | zero => intro f2 n h1 h2; omega
  | succ g ih =>
    intro f2 n h1 h2
    rcases f2 with _ | g2
    · omega
    · simp only [natDigitsAux]
      by_cases h : n < 10
      · rw [if_pos h, if_pos h]
      · rw [if_neg h, if_neg h, ih g2 (n / 10) (by omega) (by omega)]

theorem natDigits_lt_ten (n : Nat) (h : n < 10) : natDigits n = [digitChar n] := by
  unfold natDigits
  simp only [natDigitsAux]
  rw [if_pos h]

theorem natDigits_ge_ten (n : Nat) (h : ¬ n < 10) :
    natDigits n = natDigits (n / 10) ++ [digitChar (n % 10)] := by
  unfold natDigits
  conv_lhs => simp only [natDigitsAux]
  rw [if_neg h, natDigitsAux_fuel n (n / 10 + 1) (n / 10) (by omega) (by omega)]

theorem natDigits_ne_nil (n : Nat) : natDigits n ≠ [] := by
  by_cases h : n < 10
  · rw [natDigits_lt_ten n h]; simp
  · rw [natDigits_ge_ten n h]; simp

theorem digitChar_inj (a b : Nat) (ha : a < 10) (hb : b < 10)
    (h : digitChar a = digitChar b) : a = b := by
  interval_cases a <;> interval_cases b <;> simp_all <;> exact absurd h (by decide)

theorem natDigits_inj (m : Nat) : ∀ n, natDigits m = natDigits n → m = n := by
  induction m using Nat.strong_induction_on with
  | _ m ih =>
    intro n h
    by_cases hm : m < 10 <;> by_cases hn : n < 10
    · rw [natDigits_lt_ten m hm, natDigits_lt_ten n hn] at h
      exact digitChar_inj m n hm hn (by simpa using h)
    · rw [natDigits_lt_ten m hm, natDigits_ge_ten n hn] at h
      have := natDigits_ne_nil (n / 10)
      rcases List.exists_cons_of_ne_nil this with ⟨a, as, ha⟩
      rw [ha] at h
      simp at h
    · rw [natDigits_ge_ten m hm, natDigits_lt_ten n hn] at h
      have := natDigits_ne_nil (m / 10)
      rcases List.exists_cons_of_ne_nil this with ⟨a, as, ha⟩
      rw [ha] at h
      simp at h
    · rw [natDigits_ge_ten m hm, natDigits_ge_ten n hn] at h
      have hrev := congrArg List.reverse h
      simp only [List.reverse_append, List.reverse_cons, List.reverse_nil,
        List.nil_append, List.singleton_append, List.cons.injEq] at hrev
      obtain ⟨hd, htl⟩ := hrev
      have h1 : m / 10 = n / 10 := by
        apply ih (m / 10) (Nat.div_lt_self (by omega) (by omega))
        have := congrArg List.reverse htl
        simpa using this
      have h2 : m % 10 = n % 10 :=
        digitChar_inj _ _ (Nat.mod_lt _ (by omega)) (Nat.mod_lt _ (by omega)) hd
      omega

/- ### String lemmas -/

theorem strEndsWith_append (a s : List Char) : strEndsWith (a ++ s) s = true := by
  unfold strEndsWith
  have h1 : (a ++ s).length - s.length = a.length := by simp
  rw [h1, List.drop_left]
  simp

theorem stripDotLog_append (xs : List Char) : stripDotLog (xs ++ dotLog) = xs := by
  unfold stripDotLog
  rw [strEndsWith_append]
  have h1 : (xs ++ dotLog).length - 4 = xs.length := by simp [dotLog]
  simp only [if_true, h1, List.take_left]

theorem stripArchiveSuffix_append (x : List Char) :
    stripArchiveSuffix (x ++ archiveTag ++ dotTarGz) = x := by
  unfold stripArchiveSuffix
  rw [strEndsWith_append]
  have h1 : (x ++ archiveTag ++ dotTarGz).length - 7 = (x ++ archiveTag).length := by
    simp [dotTarGz, archiveTag]
  simp only [if_true, h1, List.take_left, strEndsWith_append]
  have h2 : (x ++ archiveTag).length - 8 = x.length := by simp [archiveTag]
  rw [h2, List.take_left]

theorem strLt_append_left (p a b : List Char) :
    strLt (p ++ a) (p ++ b) = strLt a b := by
  induction p with
  | nil => rfl
  | cons c cs ih => simp [strLt, ih]

/- ### Parsing generated names (round-trip helper lemmas) -/

theorem jsGetHours_bounds (t tz : Int) : 0 ≤ jsGetHours t tz ∧ jsGetHours t tz ≤ 23 := by
  unfold jsGetHours msOfDay localMs
  omega

theorem parseLogFilename_dateName (y m d : Int)
    (hy0 : 100 ≤ y) (hy9 : y ≤ 9999) (hm1 : 1 ≤ m) (hm12 : m ≤ 12)
    (hd0 : 0 ≤ d) (hd99 : d ≤ 99) :
    parseLogFilename ((pad4 y ++ '-' :: pad2 m ++ '-' :: pad2 d) ++ dotLog) 0
      = some (daysFromCivil y m d * msPerDay) := by
  unfold parseLogFilename
  rw [stripDotLog_append]
  simp only [pad4, pad2, List.cons_append, List.nil_append]
  rw [isDigit_digitChar _ (by omega), isDigit_digitChar _ (by omega),
      isDigit_digitChar _ (by omega), isDigit_digitChar _ (by omega),
      isDigit_digitChar _ (by omega), isDigit_digitChar _ (by omega),
      isDigit_digitChar _ (by omega), isDigit_digitChar _ (by omega)]
  simp only [Bool.and_self, if_true]
  rw [val4_pad4 y (by omega) hy9, val2_pad2 m (by omega) (by omega),
      val2_pad2 d (by omega) (by omega)]
  simp only [jsMakeDate]
  rw [if_neg (by omega : ¬ (0 ≤ y ∧ y ≤ 99))]
  have hq : (y * 12 + (m - 1)) / 12 = y := by omega
  have hr : (y * 12 + (m - 1)) % 12 + 1 = m := by omega
  rw [hq, hr]
  rw [daysFromCivil_day_linear y m d]
  ring_nf

theorem parseLogFilename_hourName (y m d h : Int)
    (hy0 : 100 ≤ y) (hy9 : y ≤ 9999) (hm1 : 1 ≤ m) (hm12 : m ≤ 12)
    (hd0 : 0 ≤ d) (hd99 : d ≤ 99) (hh0 : 0 ≤ h) (hh99 : h ≤ 99) :
    parseLogFilename
      (((pad4 y ++ '-' :: pad2 m ++ '-' :: pad2 d) ++ '~' :: pad2 h) ++ dotLog) 0
      = some (daysFromCivil y m d * msPerDay + h * 3600000) := by
  unfold parseLogFilename
  rw [stripDotLog_append]
  simp only [pad4, pad2, List.cons_append, List.nil_append, List.append_assoc]
  rw [isDigit_digitChar _ (by omega), isDigit_digitChar _ (by omega),
      isDigit_digitChar _ (by omega), isDigit_digitChar _ (by omega),
      isDigit_digitChar _ (by omega), isDigit_digitChar _ (by omega),
      isDigit_digitChar _ (by omega), isDigit_digitChar _ (by omega),
      isDigit_digitChar _ (by omega), isDigit_digitChar _ (by omega)]
  simp only [Bool.and_self, if_true]
  rw [val4_pad4 y (by omega) hy9, val2_pad2 m (by omega) (by omega),
      val2_pad2 d (by omega) (by omega), val2_pad2 h (by omega) (by omega)]
  simp only [jsMakeDate]
  rw [if_neg (by omega : ¬ (0 ≤ y ∧ y ≤ 99))]
  have hq : (y * 12 + (m - 1)) / 12 = y := by omega
  have hr : (y * 12 + (m - 1)) % 12 + 1 = m := by omega
  rw [hq, hr]
  rw [daysFromCivil_day_linear y m d]
  ring_nf

theorem parseArchiveFilename_hourName (y m d h : Int)
    (hy0 : 100 ≤ y) (hy9 : y ≤ 9999) (hm1 : 1 ≤ m) (hm12 : m ≤ 12)
    (hd0 : 0 ≤ d) (hd99 : d ≤ 99) (hh0 : 0 ≤ h) (hh99 : h ≤ 99) :
    parseArchiveFilename
      (((pad4 y ++ '-' :: pad2 m ++ '-' :: pad2 d) ++ '~' :: pad2 h)
        ++ archiveTag ++ dotTarGz) 0
      = some (daysFromCivil y m d * msPerDay + h * 3600000) := by
  unfold parseArchiveFilename
  rw [stripArchiveSuffix_append]
  simp only [pad4, pad2, List.cons_append, List.nil_append, List.append_assoc]
  rw [isDigit_digitChar _ (by omega), isDigit_digitChar _ (by omega),
      isDigit_digitChar _ (by omega), isDigit_digitChar _ (by omega),
      isDigit_digitChar _ (by omega), isDigit_digitChar _ (by omega),
      isDigit_digitChar _ (by omega), isDigit_digitChar _ (by omega),
      isDigit_digitChar _ (by omega), isDigit_digitChar _ (by omega)]
  simp only [Bool.and_self, if_true]
  rw [val4_pad4 y (by omega) hy9, val2_pad2 m (by omega) (by omega),
      val2_pad2 d (by omega) (by omega), val2_pad2 h (by omega) (by omega)]
  simp only [jsMakeDate]
  rw [if_neg (by omega : ¬ (0 ≤ y ∧ y ≤ 99))]
  have hq : (y * 12 + (m - 1)) / 12 = y := by omega
  have hr : (y * 12 + (m - 1)) % 12 + 1 = m := by omega
  rw [hq, hr]
  rw [daysFromCivil_day_linear y m d]
  ring_nf

theorem parseArchiveFilename_dateName (y m d : Int)
    (hy0 : 100 ≤ y) (hy9 : y ≤ 9999) (hm1 : 1 ≤ m) (hm12 : m ≤ 12)
    (hd0 : 0 ≤ d) (hd99 : d ≤ 99) :
    parseArchiveFilename
      ((pad4 y ++ '-' :: pad2 m ++ '-' :: pad2 d) ++ archiveTag ++ dotTarGz) 0
      = some (daysFromCivil y m d * msPerDay) := by
  unfold parseArchiveFilename
  rw [stripArchiveSuffix_append]
  simp only [pad4, pad2, List.cons_append, List.nil_append]
  rw [isDigit_digitChar _ (by omega), isDigit_digitChar _ (by omega),
      isDigit_digitChar _ (by omega), isDigit_digitChar _ (by omega),
      isDigit_digitChar _ (by omega), isDigit_digitChar _ (by omega),
      isDigit_digitChar _ (by omega), isDigit_digitChar _ (by omega)]
  simp only [Bool.and_self, if_true]
  rw [val4_pad4 y (by omega) hy9, val2_pad2 m (by omega) (by omega),
      val2_pad2 d (by omega) (by omega)]
  simp only [jsMakeDate]
  rw [if_neg (by omega : ¬ (0 ≤ y ∧ y ≤ 99))]
  have hq : (y * 12 + (m - 1)) / 12 = y := by omega
  have hr : (y * 12 + (m - 1)) % 12 + 1 = m := by omega
  rw [hq, hr]
  rw [daysFromCivil_day_linear y m d]
  ring_nf

theorem parseArchiveFilename_monthName (y m : Int)
    (hy0 : 100 ≤ y) (hy9 : y ≤ 9999) (hm1 : 1 ≤ m) (hm12 : m ≤ 12) :
    parseArchiveFilename ((pad4 y ++ '-' :: pad2 m) ++ archiveTag ++ dotTarGz) 0
      = some (daysFromCivil y m 1 * msPerDay) := by
  unfold parseArchiveFilename
  rw [stripArchiveSuffix_append]
  simp only [pad4, pad2, List.cons_append, List.nil_append]
  rw [isDigit_digitChar _ (by omega), isDigit_digitChar _ (by omega),
      isDigit_digitChar _ (by omega), isDigit_digitChar _ (by omega),
      isDigit_digitChar _ (by omega), isDigit_digitChar _ (by omega)]
  simp only [Bool.and_self, if_true]
  rw [val4_pad4 y (by omega) hy9, val2_pad2 m (by omega) (by omega)]
  simp only [jsMakeDate]
  rw [if_neg (by omega : ¬ (0 ≤ y ∧ y ≤ 99))]
  have hq : (y * 12 + (m - 1)) / 12 = y := by omega
  have hr : (y * 12 + (m - 1)) % 12 + 1 = m := by omega
  rw [hq, hr]
  ring_nf

theorem localMs_zero (t : Int) : localMs t 0 = t := by unfold localMs; ring

theorem jsGetDate_zero (t : Int) : jsGetDate t 0 = civilDay (epochDays t) := by
  unfold jsGetDate; rw [localMs_zero]

theorem jsGetDay_zero (t : Int) : jsGetDay t 0 = (epochDays t + 4) % 7 := by
  unfold jsGetDay; rw [localMs_zero]

/-- The day count reached by `setDate` at UTC offset zero. -/
theorem epochDays_jsSetDate_zero (t d0 : Int) :
    epochDays (jsSetDate t 0 d0)
      = daysFromCivil (civilYear (epochDays t)) (civilMonth (epochDays t)) 1 + (d0 - 1) := by
  simp only [jsSetDate]
  rw [localMs_zero]
  unfold epochDays msOfDay msPerDay
  omega

/-- `getMondayOfWeek` at UTC offset zero lands on the day of `mondayStartMs`. -/
theorem epochDays_monday (t : Int) :
    epochDays (jsSetDate t 0
        (jsGetDate t 0 - jsGetDay t 0 + (if jsGetDay t 0 = 0 then -6 else 1)))
      = epochDays (mondayStartMs t) := by
  rw [epochDays_jsSetDate_zero, jsGetDate_zero, jsGetDay_zero]
  have hday : daysFromCivil (civilYear (epochDays t)) (civilMonth (epochDays t)) 1
      + (civilDay (epochDays t) - 1) = epochDays t := by
    have h1 := daysFromCivil_civilFromDays (epochDays t)
    have h2 := daysFromCivil_day_linear (civilYear (epochDays t))
      (civilMonth (epochDays t)) (civilDay (epochDays t))
    omega
  simp only [mondayStartMs]
  have hdiv : ∀ x : Int, epochDays (x * msPerDay) = x := by
    intro x; unfold epochDays msPerDay; omega
  by_cases h0 : (epochDays t + 4) % 7 = 0
  · rw [if_pos h0, hdiv]
    omega
  · rw [if_neg h0, hdiv]
    omega

/-- C8 (amended): with the process timezone at UTC (offset 0) and the period
year between 100 and 9999, parsing the generated primary rotation filename or
generated archive artifact name recovers exactly the period-start instant of
the period that named it.  Outside that range the round trip fails (see the
counterexample): with a nonzero offset, `getPeriodString`/`getCurrentPeriod`
mix the UTC date with the local hour while the parsers rebuild local
instants; and for years 0..99 the parsers' multi-argument `Date` constructor
applies ECMAScript `MakeFullYear`, reading the year as `1900 + year`. -/
theorem claim_C8_parse_roundtrip_utc (t : Int)
    (hy0 : 100 ≤ civilYear (epochDays t)) (hy9 : civilYear (epochDays t) ≤ 9999)
    (hyMon0 : 100 ≤ civilYear (epochDays (mondayStartMs t)))
    (hyMon9 : civilYear (epochDays (mondayStartMs t)) ≤ 9999) :
    parseLogFilename (FileWriter.getLogPath (FileWriter.getPeriodString t 0 .daily)) 0
      = some (rotPeriodStart t .daily)
    ∧ parseLogFilename (FileWriter.getLogPath (FileWriter.getPeriodString t 0 .hourly)) 0
      = some (rotPeriodStart t .hourly)
    ∧ (∀ freq : ArchiveFrequency,
        parseArchiveFilename (getArchiveFilename (getCurrentPeriod t 0 freq)) 0
          = some (archPeriodStart t freq)) := by
  have hm := civilMonth_bounds (epochDays t)
  have hd := civilDay_bounds (epochDays t)
  have hh := jsGetHours_bounds t 0
  have hrt := daysFromCivil_civilFromDays (epochDays t)
  refine ⟨?_, ?_, ?_⟩
  · show parseLogFilename
      ((pad4 (civilYear (epochDays t)) ++ '-' :: pad2 (civilMonth (epochDays t))
        ++ '-' :: pad2 (civilDay (epochDays t))) ++ dotLog) 0 = _
    rw [parseLogFilename_dateName _ _ _ hy0 hy9 hm.1 hm.2 (by omega) (by omega), hrt]
    rfl
  · show parseLogFilename
      (((pad4 (civilYear (epochDays t)) ++ '-' :: pad2 (civilMonth (epochDays t))
        ++ '-' :: pad2 (civilDay (epochDays t))) ++ '~' :: pad2 (jsGetHours t 0))
        ++ dotLog) 0 = _
    rw [parseLogFilename_hourName _ _ _ _ hy0 hy9 hm.1 hm.2 (by omega) (by omega)
        (by omega) (by omega), hrt]
    show some (epochDays t * msPerDay + jsGetHours t 0 * 3600000)
      = some (hourStartMs t)
    unfold jsGetHours msOfDay localMs epochDays msPerDay hourStartMs
    congr 1
    omega
  · intro freq
    cases freq with
    | hourly =>
      show parseArchiveFilename
        (((pad4 (civilYear (epochDays t)) ++ '-' :: pad2 (civilMonth (epochDays t))
          ++ '-' :: pad2 (civilDay (epochDays t))) ++ '~' :: pad2 (jsGetHours t 0))
          ++ archiveTag ++ dotTarGz) 0 = _
      rw [parseArchiveFilename_hourName _ _ _ _ hy0 hy9 hm.1 hm.2 (by omega) (by omega)
          (by omega) (by omega), hrt]
      show some (epochDays t * msPerDay + jsGetHours t 0 * 3600000)
        = some (hourStartMs t)
      unfold jsGetHours msOfDay localMs epochDays msPerDay hourStartMs
      congr 1
      omega
    | daily =>
      show parseArchiveFilename
        ((pad4 (civilYear (epochDays t)) ++ '-' :: pad2 (civilMonth (epochDays t))
          ++ '-' :: pad2 (civilDay (epochDays t))) ++ archiveTag ++ dotTarGz) 0 = _
      rw [parseArchiveFilename_dateName _ _ _ hy0 hy9 hm.1 hm.2 (by omega) (by omega),
          hrt]
      rfl
    | weekly =>
      have hmon := epochDays_monday t
      have hmM := civilMonth_bounds (epochDays (mondayStartMs t))
      have hmD := civilDay_bounds (epochDays (mondayStartMs t))
      have hrtM := daysFromCivil_civilFromDays (epochDays (mondayStartMs t))
      show parseArchiveFilename
        (getArchiveFilename (getMondayOfWeek t 0)) 0 = _
      simp only [getMondayOfWeek, isoDateChars, getArchiveFilename]
      rw [hmon]
      rw [parseArchiveFilename_dateName _ _ _ hyMon0 hyMon9 hmM.1 hmM.2
          (by omega) (by omega), hrtM]
      show some (epochDays (mondayStartMs t) * msPerDay) = some (archPeriodStart t .weekly)
      have : epochDays (mondayStartMs t) * msPerDay = mondayStartMs t := by
        simp only [mondayStartMs]
        split_ifs <;> (unfold epochDays msPerDay; omega)
      rw [this]
      rfl
    | monthly =>
      show parseArchiveFilename
        ((pad4 (civilYear (epochDays t)) ++ '-' :: pad2 (civilMonth (epochDays t)))
          ++ archiveTag ++ dotTarGz) 0 = _
      rw [parseArchiveFilename_monthName _ _ hy0 hy9 hm.1 hm.2]
      rfl

/-- C8 witness: the daily round trip at a concrete instant. -/
theorem claim_C8_parse_roundtrip_utc_witness :
    parseLogFilename
      (FileWriter.getLogPath
        (FileWriter.getPeriodString (utcMs 2025 1 2 14 30 55 123) 0 .daily)) 0
      = some (rotPeriodStart (utcMs 2025 1 2 14 30 55 123) .daily) :=
  (claim_C8_parse_roundtrip_utc (utcMs 2025 1 2 14 30 55 123)
    (by decide) (by decide) (by decide) (by decide)).1

/-- C8 counterexample: at local offset +60 minutes, the hourly name generated
for 2025-01-01T23:30Z is `2025-01-01~00.log` (UTC date with local hour), and
parsing it yields an instant a day away from the hour that generated it; and
even at offset 0, the daily name `0050-01-01.log` generated for a year-50
instant parses to the year-1950 instant (ECMAScript `MakeFullYear` in the
parsers' `Date` constructor), so the round trip also fails for years 0..99. -/
theorem claim_C8_counterexample :
    parseLogFilename
      (FileWriter.getLogPath
        (FileWriter.getPeriodString (utcMs 2025 1 1 23 30 0 0) 60 .hourly)) 60
      ≠ some (rotPeriodStart (utcMs 2025 1 1 23 30 0 0) .hourly)
    ∧ parseLogFilename
        (FileWriter.getLogPath
          (FileWriter.getPeriodString (utcMs 50 1 1 12 0 0 0) 0 .daily)) 0
        ≠ some (rotPeriodStart (utcMs 50 1 1 12 0 0 0) .daily)
    ∧ parseLogFilename
        (FileWriter.getLogPath
          (FileWriter.getPeriodString (utcMs 50 1 1 12 0 0 0) 0 .daily)) 0
        = some (rotPeriodStart (utcMs 1950 1 1 12 0 0 0) .daily) := by
  refine ⟨by decide, by decide, by decide⟩

/- ### Overflow candidate ordering (C9) -/

theorem strLt_cons_lt (a b : Char) (r r' : List Char) (h : a.toNat < b.toNat) :
    strLt (a :: r) (b :: r') = true := by
  simp only [strLt]
  rw [if_pos h]

theorem strLt_cons_same (c : Char) (a b : List Char) :
    strLt (c :: a) (c :: b) = strLt a b := by
  simp [strLt]

theorem digitChar_toNat_mono (a b : Nat) (hab : a < b) (hb : b < 10) :
    (digitChar a).toNat < (digitChar b).toNat := by
  interval_cases b <;> interval_cases a <;> decide

/-- C9 (amended): within one `generateOverflowCandidates` invocation, the
candidate names produced in order sort lexicographically in that order as
long as the numeric collision counter stays single-digit (candidates 0..10,
i.e. counters up to 9); from counter 10 on the lexicographic order breaks
(see the counterexample). -/
theorem claim_C9_candidates_sorted (now tz : Int) (i j : Nat)
    (hij : i < j) (hj : j ≤ 10) :
    strLt (FileWriter.overflowCandidate now tz i)
      (FileWriter.overflowCandidate now tz j) = true := by
  rcases j with _ | _ | j2
  · omega
  · -- j = 1 forces i = 0
    have hi : i = 0 := by omega
    subst hi
    simp only [FileWriter.overflowCandidate, dotLog, List.append_assoc, List.cons_append]
    simp only [strLt_append_left, strLt_cons_same]
    exact strLt_cons_lt _ _ _ _ (by decide)
  · rcases i with _ | _ | i2
    · simp only [FileWriter.overflowCandidate, dotLog, List.append_assoc,
        List.cons_append]
      simp only [strLt_append_left, strLt_cons_same]
      exact strLt_cons_lt _ _ _ _ (by decide)
    · simp only [FileWriter.overflowCandidate, dotLog, List.append_assoc,
        List.cons_append]
      simp only [strLt_append_left, strLt_cons_same]
      exact strLt_cons_lt _ _ _ _ (by decide)
    · simp only [FileWriter.overflowCandidate, dotLog, List.append_assoc,
        List.cons_append]
      rw [natDigits_lt_ten (i2 + 1) (by omega), natDigits_lt_ten (j2 + 1) (by omega)]
      simp only [List.cons_append, List.nil_append]
      simp only [strLt_append_left, strLt_cons_same]
      exact strLt_cons_lt _ _ _ _
        (digitChar_toNat_mono (i2 + 1) (j2 + 1) (by omega) (by omega))

/-- C9 witness: the plain-timestamp candidate sorts before the
millisecond-suffixed one at a concrete instant. -/
theorem claim_C9_candidates_sorted_witness :
    strLt (FileWriter.overflowCandidate (utcMs 2025 1 2 14 30 55 123) 0 0)
      (FileWriter.overflowCandidate (utcMs 2025 1 2 14 30 55 123) 0 1) = true :=
  claim_C9_candidates_sorted (utcMs 2025 1 2 14 30 55 123) 0 0 1
    (by decide) (by decide)

/-- C9 counterexample: the candidate with counter 10 (created after the one
with counter 2) sorts lexicographically before it, so creation order and
lexicographic order disagree from the tenth collision onward. -/
theorem claim_C9_counterexample :
    strLt (FileWriter.overflowCandidate (utcMs 2025 1 2 14 30 55 123) 0 11)
        (FileWriter.overflowCandidate (utcMs 2025 1 2 14 30 55 123) 0 3) = true
      ∧ strLt (FileWriter.overflowCandidate (utcMs 2025 1 2 14 30 55 123) 0 3)
        (FileWriter.overflowCandidate (utcMs 2025 1 2 14 30 55 123) 0 11) = false := by
  constructor <;> decide

/- ### C10: the disabled writer drops everything -/

/-- C10: once the writer is disabled (`isEnabled = false`, as after a failed
log-directory creation) or its stream is gone (as after three failed reopen
attempts), `write` returns without changing any state, and `flushBuffer`
empties the buffer without touching any file: buffered lines are silently
discarded. -/
theorem claim_C10_disabled_writer (st : WriterState) (msg : List Char)
    (now tz : Int) (freq : FileRotationFrequency)
    (h : st.isEnabled = false ∨ st.streamOpen = false) :
    FileWriter.write st msg now tz freq = st
    ∧ FileWriter.flushBuffer st now tz freq
        = { st with buffer := [], bufferBytes := 0 }
    ∧ (FileWriter.flushBuffer st now tz freq).files = st.files
    ∧ (FileWriter.flushBuffer st now tz freq).buffer = [] := by
  have hw : ¬ st.isEnabled = true ∨ ¬ st.streamOpen = true := by
    rcases h with h | h <;> simp [h]
  have hf : ¬ st.streamOpen = true ∨ ¬ st.isEnabled = true := hw.symm
  refine ⟨?_, ?_, ?_, ?_⟩
  · unfold FileWriter.write
    rw [if_pos hw]
  · unfold FileWriter.flushBuffer
    rw [if_pos hf]
  · unfold FileWriter.flushBuffer
    rw [if_pos hf]
  · unfold FileWriter.flushBuffer
    rw [if_pos hf]

/-- C10 witness: a concrete disabled writer with a buffered line. -/
theorem claim_C10_disabled_writer_witness :
    FileWriter.write
      { files := [], buffer := [['a', '\n']], bufferBytes := 2, bytesWritten := 0,
        currentPeriod := [], currentFilePath := [], streamOpen := false,
        isEnabled := false, isClosed := false, isFlushing := false,
        isRotating := false, pendingWrites := [], maxBufferLines := 500,
        maxBufferBytes := 1048576, maxLogSizeBytes := 104857600 }
      ['x'] 0 0 .daily
      = { files := [], buffer := [['a', '\n']], bufferBytes := 2, bytesWritten := 0,
          currentPeriod := [], currentFilePath := [], streamOpen := false,
          isEnabled := false, isClosed := false, isFlushing := false,
          isRotating := false, pendingWrites := [], maxBufferLines := 500,
          maxBufferBytes := 1048576, maxLogSizeBytes := 104857600 } :=
  (claim_C10_disabled_writer _ ['x'] 0 0 .daily (Or.inl rfl)).1

/- ### C4: coordinator gating of the maintenance workers -/

/-- C4 counterexample: with `runOnCreation` set and `isCoordinator` false at
creation, `startArchiver` spawns the archiver worker anyway — an invocation
whose coordinator status is `false`. -/
theorem claim_C4_counterexample :
    startArchiverInvocations true false [] = [false] := rfl

/-- C4 (amended): every scheduled-tick archiver invocation and every
retention-worker invocation (on creation or scheduled) happens only when
`isCoordinator` is true; the archiver's run-on-creation invocation is the one
exception — it is spawned without a coordinator check. -/
theorem claim_C4_gating :
    (∀ (coordC : Bool) (ticks : List Bool) (c : Bool),
      c ∈ startArchiverInvocations false coordC ticks → c = true)
    ∧ (∀ (conf coordC : Bool) (ticks : List Bool) (c : Bool),
      c ∈ startRetentionInvocations conf coordC ticks → c = true)
    ∧ (∀ (runC coordC : Bool) (ticks : List Bool) (c : Bool),
      c ∈ startArchiverInvocations runC coordC ticks → c = true ∨ c = coordC) := by
  refine ⟨?_, ?_, ?_⟩
  · intro coordC ticks c hc
    unfold startArchiverInvocations at hc
    simp only [if_neg (by simp : ¬ false = true), List.nil_append] at hc
    exact (List.mem_filter.mp hc).2
  · intro conf coordC ticks c hc
    unfold startRetentionInvocations at hc
    by_cases hconf : conf = true
    · rw [if_pos hconf] at hc
      exact (List.mem_filter.mp hc).2
    · rw [if_neg hconf] at hc
      simp at hc
  · intro runC coordC ticks c hc
    unfold startArchiverInvocations at hc
    rcases List.mem_append.mp hc with hl | hr
    · by_cases hrc : runC = true
      · rw [if_pos hrc] at hl
        simp at hl
        exact Or.inr hl
      · rw [if_neg hrc] at hl
        simp at hl
    · exact Or.inl ((List.mem_filter.mp hr).2)

/-- C4 witness: a gated scheduled invocation is indeed coordinator-true. -/
theorem claim_C4_gating_witness :
    true ∈ startArchiverInvocations false true [true] ∧ true = true :=
  ⟨by decide, claim_C4_gating.1 true [true] true (by decide)⟩

/- ### C7: a compression failure aborts the remaining periods -/

/-- C7 (amended): the periods archived by one run are exactly the longest
all-successful prefix of the sorted eligible periods — a compression failure
is caught (and logged) by the sweep-level handler, so the remaining periods
of that sweep are not processed. -/
theorem claim_C7_failure_aborts_sweep (files : List (List Char)) (now tz : Int)
    (freq : ArchiveFrequency) (compressOk : List Char → Bool) :
    archiverRunArchivedPeriods files now tz freq compressOk
      = (archivePeriodsOf files now tz freq).takeWhile compressOk := by
  unfold archiverRunArchivedPeriods
  generalize archivePeriodsOf files now tz freq = ps
  induction ps with
  | nil => rfl
  | cons p ps ih =>
    simp only [runArchiverPeriods, List.takeWhile]
    by_cases hok : compressOk p = true
    · rw [if_pos hok, hok, ih]
    · rw [if_neg hok]
      rw [Bool.not_eq_true] at hok
      rw [hok]

/-- C7 counterexample: two eligible periods `2025-01-01 < 2025-01-02`; the
compression of the first fails, the second (which would itself compress fine)
is nevertheless not archived by the run. -/
theorem claim_C7_counterexample :
    (['2', '0', '2', '5', '-', '0', '1', '-', '0', '2'] : List Char)
        ∈ archivePeriodsOf
          [['2', '0', '2', '5', '-', '0', '1', '-', '0', '1', '.', 'l', 'o', 'g'],
           ['2', '0', '2', '5', '-', '0', '1', '-', '0', '2', '.', 'l', 'o', 'g']]
          (utcMs 2025 1 5 10 0 0 0) 0 .daily
    ∧ (['2', '0', '2', '5', '-', '0', '1', '-', '0', '2'] : List Char)
        ∉ archiverRunArchivedPeriods
          [['2', '0', '2', '5', '-', '0', '1', '-', '0', '1', '.', 'l', 'o', 'g'],
           ['2', '0', '2', '5', '-', '0', '1', '-', '0', '2', '.', 'l', 'o', 'g']]
          (utcMs 2025 1 5 10 0 0 0) 0 .daily
          (fun p => p != ['2', '0', '2', '5', '-', '0', '1', '-', '0', '1'])
    ∧ (fun (p : List Char) => p != ['2', '0', '2', '5', '-', '0', '1', '-', '0', '1'])
        ['2', '0', '2', '5', '-', '0', '1', '-', '0', '2'] = true
    ∧ strLt ['2', '0', '2', '5', '-', '0', '1', '-', '0', '1']
        ['2', '0', '2', '5', '-', '0', '1', '-', '0', '2'] = true := by
  refine ⟨by decide, by decide, by decide, by decide⟩

/- ### Membership lemmas for the archiver pipeline -/

theorem mem_insertAscStr (x y : List Char) (l : List (List Char)) :
    x ∈ insertAscStr y l ↔ x = y ∨ x ∈ l := by
  induction l with
  | nil => simp [insertAscStr]
  | cons z zs ih =>
    simp only [insertAscStr]
    split
    · simp
    · simp only [List.mem_cons, ih]
      tauto

theorem mem_sortAscStrings (x : List Char) (l : List (List Char)) :
    x ∈ sortAscStrings l ↔ x ∈ l := by
  unfold sortAscStrings
  induction l with
  | nil => simp
  | cons y ys ih =>
    simp only [List.foldr_cons, mem_insertAscStr, ih, List.mem_cons]

theorem mem_dedupStr_fold (x : List Char) (l : List (List Char)) :
    ∀ acc, x ∈ l.foldl
        (fun acc p => if acc.contains p then acc else acc ++ [p]) acc
      ↔ x ∈ acc ∨ x ∈ l := by
  induction l with
  | nil => intro acc; simp
  | cons p ps ih =>
    intro acc
    simp only [List.foldl_cons, ih]
    by_cases hc : acc.contains p = true
    · rw [if_pos hc]
      have hp : p ∈ acc := by simpa using hc
      simp only [List.mem_cons]
      constructor
      · rintro (h | h)
        · exact Or.inl h
        · exact Or.inr (Or.inr h)
      · rintro (h | h | h)
        · exact Or.inl h
        · exact Or.inl (h ▸ hp)
        · exact Or.inr h
    · rw [if_neg hc]
      simp only [List.mem_append, List.mem_singleton, List.mem_cons]
      tauto

theorem mem_dedupStr (x : List Char) (l : List (List Char)) :
    x ∈ dedupStr l ↔ x ∈ l := by
  unfold dedupStr
  rw [mem_dedupStr_fold]
  simp

/- ### C5: which files an archiver run touches -/

/-- C5 (amended): a failure-free archiver run compresses-and-deletes exactly
the `.log` files whose computed period differs from the current period — the
skip test is string inequality, not "strictly before", so a file of a period
after the current one is archived too (see the counterexample); a file of the
current period is never archived, and with daily frequency at 2025-01-03 the
file `2025-01-02.log` is eligible while `2025-01-03.log` is not. -/
theorem claim_C5_archiver_selects_noncurrent (files : List (List Char))
    (now tz : Int) (freq : ArchiveFrequency) (f : List Char) :
    (f ∈ archiverRunArchivedFiles files now tz freq
      ↔ f ∈ files ∧ strEndsWith f dotLog = true
        ∧ ∃ p, getFilePeriod f freq tz = some p
            ∧ p ≠ getCurrentPeriod now tz freq)
    ∧ (['2', '0', '2', '5', '-', '0', '1', '-', '0', '3', '.', 'l', 'o', 'g'] : List Char)
        ∉ archiverRunArchivedFiles
          [['2', '0', '2', '5', '-', '0', '1', '-', '0', '2', '.', 'l', 'o', 'g'],
           ['2', '0', '2', '5', '-', '0', '1', '-', '0', '3', '.', 'l', 'o', 'g']]
          (utcMs 2025 1 3 10 0 0 0) 0 .daily
    ∧ (['2', '0', '2', '5', '-', '0', '1', '-', '0', '2', '.', 'l', 'o', 'g'] : List Char)
        ∈ archiverRunArchivedFiles
          [['2', '0', '2', '5', '-', '0', '1', '-', '0', '2', '.', 'l', 'o', 'g'],
           ['2', '0', '2', '5', '-', '0', '1', '-', '0', '3', '.', 'l', 'o', 'g']]
          (utcMs 2025 1 3 10 0 0 0) 0 .daily := by
  refine ⟨?_, by decide, by decide⟩
  unfold archiverRunArchivedFiles archiverRunGroups
  simp only [List.mem_flatMap, List.mem_map]
  constructor
  · rintro ⟨grp, ⟨p, hp, rfl⟩, hf⟩
    unfold archivePeriodsOf at hp
    rw [mem_sortAscStrings, mem_dedupStr] at hp
    rcases List.mem_filterMap.mp hp with ⟨g, _hg, hgp⟩
    have hpne : p ≠ getCurrentPeriod now tz freq := by
      cases hper : getFilePeriod g freq tz with
      | none =>
        rw [hper] at hgp
        exact absurd hgp (by simp)
      | some q =>
        rw [hper] at hgp
        have hgp' : (if (q != getCurrentPeriod now tz freq) = true
            then some q else none) = some p := hgp
        by_cases hq : (q != getCurrentPeriod now tz freq) = true
        · rw [if_pos hq] at hgp'
          cases hgp'
          simpa using hq
        · rw [if_neg hq] at hgp'
          simp at hgp'
    unfold periodFiles at hf
    rcases List.mem_filter.mp hf with ⟨hflog, hcond⟩
    rcases List.mem_filter.mp hflog with ⟨hffiles, hfend⟩
    have hfp : getFilePeriod f freq tz = some p := by
      cases hper : getFilePeriod f freq tz with
      | none =>
        rw [hper] at hcond
        exact absurd hcond (by simp)
      | some q =>
        rw [hper] at hcond
        have hcond' : (q == p) = true := hcond
        have : q = p := by simpa using hcond'
        rw [this]
    exact ⟨hffiles, hfend, p, hfp, hpne⟩
  · rintro ⟨hffiles, hfend, p, hfp, hpne⟩
    have hflog : f ∈ logFilesOf files := List.mem_filter.mpr ⟨hffiles, hfend⟩
    refine ⟨(p, periodFiles files p freq tz), ⟨p, ?_, rfl⟩, ?_⟩
    · unfold archivePeriodsOf
      rw [mem_sortAscStrings, mem_dedupStr]
      refine List.mem_filterMap.mpr ⟨f, hflog, ?_⟩
      rw [hfp]
      show (if (p != getCurrentPeriod now tz freq) = true
          then some p else none) = some p
      rw [if_pos (by simpa using hpne)]
    · unfold periodFiles
      refine List.mem_filter.mpr ⟨hflog, ?_⟩
      rw [hfp]
      show (p == p) = true
      simp

/-- C5 counterexample: at "today" 2025-01-03 (daily frequency) the
future-dated file `2025-01-04.log` — whose period is *after*, not strictly
before, the current period — is selected for archiving, refuting "only
periods strictly before the current period are archived". -/
theorem claim_C5_counterexample :
    (['2', '0', '2', '5', '-', '0', '1', '-', '0', '4', '.', 'l', 'o', 'g'] : List Char)
      ∈ archiverRunArchivedFiles
        [['2', '0', '2', '5', '-', '0', '1', '-', '0', '4', '.', 'l', 'o', 'g']]
        (utcMs 2025 1 3 10 0 0 0) 0 .daily
    ∧ strLt (getCurrentPeriod (utcMs 2025 1 3 10 0 0 0) 0 .daily)
        ['2', '0', '2', '5', '-', '0', '1', '-', '0', '4'] = true
    ∧ getFilePeriod
        ['2', '0', '2', '5', '-', '0', '1', '-', '0', '4', '.', 'l', 'o', 'g'] .daily 0
      = some ['2', '0', '2', '5', '-', '0', '1', '-', '0', '4'] := by
  refine ⟨by decide, by decide, by decide⟩

/- ### C6: the retention cutoff -/

/-- C6: one retention run deletes a rotation file iff it is a `.log` file
whose name parses to a period-start instant before the cutoff, and an archive
artifact iff it is a `.tar.gz` file whose name parses before the cutoff;
unparseable names are never deleted.  The cutoff is `now` minus an exact span
for hour/day/week units (calendar-aware field arithmetic for month/year), and
with retention `7d` at 2025-01-13T12:00Z the file dated ten days earlier
(`2025-01-03.log`) is deleted while the three-day-old file, today's file and
an unparseable name are preserved. -/
theorem claim_C6_retention_cutoff (dirFiles archiveFiles : List (List Char))
    (now tz value : Int) (unit : RetentionUnit) (f : List Char) :
    (f ∈ retentionDeletedLogs dirFiles now tz value unit
      ↔ f ∈ dirFiles ∧ strEndsWith f dotLog = true
        ∧ ∃ d, parseLogFilename f tz = some d
            ∧ d < getCutoffDate now tz value unit)
    ∧ (f ∈ retentionDeletedArchives archiveFiles now tz value unit
      ↔ f ∈ archiveFiles ∧ strEndsWith f dotTarGz = true
        ∧ ∃ d, parseArchiveFilename f tz = some d
            ∧ d < getCutoffDate now tz value unit)
    ∧ getCutoffDate now tz value .h = now - value * 3600000
    ∧ getCutoffDate now tz value .d = now - value * msPerDay
    ∧ getCutoffDate now tz value .w = now - value * 7 * msPerDay
    ∧ retentionDeletedLogs
        [['2', '0', '2', '5', '-', '0', '1', '-', '0', '3', '.', 'l', 'o', 'g'],
         ['2', '0', '2', '5', '-', '0', '1', '-', '1', '0', '.', 'l', 'o', 'g'],
         ['2', '0', '2', '5', '-', '0', '1', '-', '1', '3', '.', 'l', 'o', 'g'],
         ['g', 'a', 'r', 'b', 'a', 'g', 'e', '.', 'l', 'o', 'g']]
        (utcMs 2025 1 13 12 0 0 0) 0 7 .d
      = [['2', '0', '2', '5', '-', '0', '1', '-', '0', '3', '.', 'l', 'o', 'g']] := by
  have hrt := daysFromCivil_civilFromDays (epochDays (localMs now tz))
  have hlin := daysFromCivil_day_linear
    (civilYear (epochDays (localMs now tz)))
    (civilMonth (epochDays (localMs now tz)))
    (civilDay (epochDays (localMs now tz)))
  refine ⟨?_, ?_, ?_, ?_, ?_, by decide⟩
  · unfold retentionDeletedLogs
    constructor
    · intro hmem
      rcases List.mem_filter.mp hmem with ⟨hlog, hcond⟩
      rcases List.mem_filter.mp hlog with ⟨hfiles, hend⟩
      refine ⟨hfiles, hend, ?_⟩
      cases hper : parseLogFilename f tz with
      | none =>
        rw [hper] at hcond
        exact absurd hcond (by simp)
      | some d =>
        rw [hper] at hcond
        have hcond' : decide (d < getCutoffDate now tz value unit) = true := hcond
        exact ⟨d, rfl, of_decide_eq_true hcond'⟩
    · rintro ⟨hfiles, hend, d, hper, hlt⟩
      refine List.mem_filter.mpr ⟨List.mem_filter.mpr ⟨hfiles, hend⟩, ?_⟩
      rw [hper]
      show decide (d < getCutoffDate now tz value unit) = true
      exact decide_eq_true hlt
  · unfold retentionDeletedArchives
    constructor
    · intro hmem
      rcases List.mem_filter.mp hmem with ⟨hlog, hcond⟩
      rcases List.mem_filter.mp hlog with ⟨hfiles, hend⟩
      refine ⟨hfiles, hend, ?_⟩
      cases hper : parseArchiveFilename f tz with
      | none =>
        rw [hper] at hcond
        exact absurd hcond (by simp)
      | some d =>
        rw [hper] at hcond
        have hcond' : decide (d < getCutoffDate now tz value unit) = true := hcond
        exact ⟨d, rfl, of_decide_eq_true hcond'⟩
    · rintro ⟨hfiles, hend, d, hper, hlt⟩
      refine List.mem_filter.mpr ⟨List.mem_filter.mpr ⟨hfiles, hend⟩, ?_⟩
      rw [hper]
      show decide (d < getCutoffDate now tz value unit) = true
      exact decide_eq_true hlt
  · show jsSetHours now tz (jsGetHours now tz - value) = now - value * 3600000
    simp only [jsSetHours, jsGetHours, localMs, msOfDay, epochDays, msPerDay]
    omega
  · show jsSetDate now tz (jsGetDate now tz - value) = now - value * msPerDay
    simp only [jsSetDate, jsGetDate, localMs, msOfDay, epochDays, msPerDay] at *
    omega
  · show jsSetDate now tz (jsGetDate now tz - value * 7) = now - value * 7 * msPerDay
    simp only [jsSetDate, jsGetDate, localMs, msOfDay, epochDays, msPerDay] at *
    omega

/- ### C3: coordinator uniqueness -/

theorem coordStep_inv {n : Nat} {s s' : CoordState n}
    (hinv : CoordInv s) (hstep : CoordStep s s') : CoordInv s' := by
  cases hstep with
  | claim i now hfresh =>
    cases hown : s.owned i with
    | true =>
      have hres : (tryClaimCoordinator s i now).2 = s := by
        simp [tryClaimCoordinator, hown]
      rw [hres]; exact hinv
    | false =>
      cases hlk : s.lock with
      | none =>
        have hres : (tryClaimCoordinator s i now).2
            = { lock := some (i, now),
                owned := fun j => if j = i then true else s.owned j } := by
          simp [tryClaimCoordinator, hown, hlk]
        rw [hres]
        intro j hj
        simp only at hj
        by_cases hji : j = i
        · exact ⟨now, by rw [hji]⟩
        · rw [if_neg hji] at hj
          rcases hinv j hj with ⟨mt, hmt⟩
          rw [hlk] at hmt
          exact absurd hmt (by simp)
      | some km =>
        rcases km with ⟨k, mt⟩
        by_cases hstale : now - mt > coordStaleMs
        · have hres : (tryClaimCoordinator s i now).2
              = { lock := some (i, now),
                  owned := fun j => if j = i then true else s.owned j } := by
            simp [tryClaimCoordinator, hown, hlk, hstale]
          rw [hres]
          intro j hj
          simp only at hj
          by_cases hji : j = i
          · exact ⟨now, by rw [hji]⟩
          · rw [if_neg hji] at hj
            rcases hinv j hj with ⟨mt', hmt'⟩
            rw [hlk] at hmt'
            have hinj : k = j ∧ mt = mt' := by simpa using hmt'
            have hk := hfresh k mt hlk (by rw [hinj.1]; exact hj)
            have hc : coordStaleMs = 30000 := rfl
            omega
        · have hres : (tryClaimCoordinator s i now).2 = s := by
            simp [tryClaimCoordinator, hown, hlk, hstale]
          rw [hres]; exact hinv
  | release i hown =>
    intro j hj
    simp only [releaseCoordinator] at hj
    by_cases hji : j = i
    · rw [if_pos hji] at hj; cases hj
    · rw [if_neg hji] at hj
      rcases hinv j hj with ⟨mt, hmt⟩
      rcases hinv i hown with ⟨mt', hmt'⟩
      rw [hmt] at hmt'
      cases hmt'
      exact absurd rfl hji
  | heartbeat i now =>
    unfold heartbeatCoordinator
    by_cases hown : s.owned i = true
    · rw [if_pos hown]
      intro j hj
      rcases hinv j hj with ⟨mt', hmt'⟩
      refine ⟨now, ?_⟩
      simp only
      rw [hmt']
    · rw [if_neg hown]; exact hinv
  | crash i =>
    intro j hj
    simp only [crashCoordinator] at hj
    by_cases hji : j = i
    · rw [if_pos hji] at hj; cases hj
    · rw [if_neg hji] at hj
      exact hinv j hj

theorem coordReach_inv {n : Nat} {s : CoordState n}
    (h : CoordReach s) : CoordInv s := by
  induction h with
  | init => intro j hj; cases hj
  | step _ hstep ih => exact coordStep_inv ih hstep

/-- C3 (amended): in every reachable state of the claim/heartbeat/release
protocol at most one cluster worker holds the coordinator registry entry, and
in the three-candidate run (claims at t=0, 5, 9 ms) exactly the first claimant
owns it, the later claims return false, and after the owner releases, a
different candidate's very next claim succeeds (immediately, well within one
staleness window).  `isCoordinator` itself, however, returns true
unconditionally for the cluster primary and for non-cluster processes, so
"exactly one of N candidates reports true" fails across process kinds (see
the counterexample). -/
theorem claim_C3_coordinator_unique (n : Nat) (s : CoordState n)
    (hreach : CoordReach s) :
    (∀ i j : Fin n, s.owned i = true → s.owned j = true → i = j)
    ∧ ((tryClaimCoordinator (CoordState.init 3) 0 0).1 = true
      ∧ (tryClaimCoordinator (tryClaimCoordinator (CoordState.init 3) 0 0).2 1 5).1
          = false
      ∧ (tryClaimCoordinator
          (tryClaimCoordinator (tryClaimCoordinator (CoordState.init 3) 0 0).2 1 5).2
          2 9).1 = false
      ∧ ((tryClaimCoordinator
          (tryClaimCoordinator (tryClaimCoordinator (CoordState.init 3) 0 0).2 1 5).2
          2 9).2.owned 0 = true
        ∧ (tryClaimCoordinator
          (tryClaimCoordinator (tryClaimCoordinator (CoordState.init 3) 0 0).2 1 5).2
          2 9).2.owned 1 = false
        ∧ (tryClaimCoordinator
          (tryClaimCoordinator (tryClaimCoordinator (CoordState.init 3) 0 0).2 1 5).2
          2 9).2.owned 2 = false)
      ∧ ∀ later : Int,
          (tryClaimCoordinator
            (releaseCoordinator
              (tryClaimCoordinator
                (tryClaimCoordinator (tryClaimCoordinator (CoordState.init 3) 0 0).2
                  1 5).2
                2 9).2 0)
            1 later).1 = true) := by
  constructor
  · intro i j hi hj
    have hinv := coordReach_inv hreach
    rcases hinv i hi with ⟨mt, hmt⟩
    rcases hinv j hj with ⟨mt', hmt'⟩
    rw [hmt] at hmt'
    cases hmt'
    rfl
  · refine ⟨by decide, by decide, by decide, ⟨by decide, by decide, by decide⟩, ?_⟩
    intro later
    rfl

/-- C3 witness: the uniqueness theorem applied to the initial two-worker
state, which is reachable. -/
theorem claim_C3_coordinator_unique_witness :
    (∀ i j : Fin 2, (CoordState.init 2).owned i = true →
      (CoordState.init 2).owned j = true → i = j)
    ∧ (tryClaimCoordinator (CoordState.init 3) 0 0).1 = true :=
  ⟨(claim_C3_coordinator_unique 2 (CoordState.init 2) CoordReach.init).1,
   (claim_C3_coordinator_unique 2 (CoordState.init 2) CoordReach.init).2.1⟩

/-- C3 counterexample: the cluster primary and a worker holding the registry
entry both report `isCoordinator() == true` at the same instant, and so do
two plain (non-cluster) processes sharing the directory — "exactly one of
the N candidates reports true" fails. -/
theorem claim_C3_counterexample :
    isCoordinatorJs true false false = true
    ∧ isCoordinatorJs false true true = true
    ∧ isCoordinatorJs false false false = true := by
  decide

/- ### C2: buffering, forced flush, and the rotation-time pending queue -/

theorem utf8Len_nonneg (cs : List Char) : 0 ≤ utf8Len cs := Int.natCast_nonneg _

theorem linesBytes_cons (l : List Char) (ls : List (List Char)) :
    linesBytes (l :: ls) = utf8Len l + linesBytes ls := by
  simp [linesBytes]

theorem linesBytes_nonneg (ls : List (List Char)) : 0 ≤ linesBytes ls := by
  induction ls with
  | nil => simp [linesBytes]
  | cons l ls ih =>
    rw [linesBytes_cons]
    have := utf8Len_nonneg l
    omega

theorem fsLookup_fsAppend_self (fs : FsDir) (n c : List Char) :
    fsLookup (fsAppend fs n c) n = some ((fsLookup fs n).getD [] ++ c) := by
  induction fs with
  | nil => simp [fsAppend, fsLookup]
  | cons e es ih =>
    by_cases h : e.1 = n
    · simp [fsAppend, fsLookup, h]
    · simp [fsAppend, fsLookup, h, ih]

theorem write_buffered (st : WriterState) (m : List Char) (now tz : Int)
    (freq : FileRotationFrequency)
    (hEn : st.isEnabled = true) (hStr : st.streamOpen = true)
    (hRot : st.isRotating = false)
    (hPeriod : FileWriter.getPeriodString now tz freq = st.currentPeriod)
    (hLines : (st.buffer.length : Int) + 1 < st.maxBufferLines)
    (hBytes : st.bufferBytes + utf8Len (ensureNewline m) < st.maxBufferBytes)
    (hSize : st.bytesWritten + utf8Len (ensureNewline m) < st.maxLogSizeBytes) :
    FileWriter.write st m now tz freq
      = { st with bytesWritten := st.bytesWritten + utf8Len (ensureNewline m),
                  buffer := st.buffer ++ [ensureNewline m],
                  bufferBytes := st.bufferBytes + utf8Len (ensureNewline m) } := by
  simp only [FileWriter.write]
  rw [if_neg (by simp [hEn, hStr])]
  rw [if_neg (by simp [hRot])]
  rw [if_neg (show ¬ (FileWriter.getPeriodString now tz freq ≠ st.currentPeriod
      ∨ st.bytesWritten + utf8Len (ensureNewline m) ≥ st.maxLogSizeBytes) by
    push_neg
    exact ⟨hPeriod, by omega⟩)]
  rw [if_neg (show ¬ ((((st.buffer ++ [ensureNewline m]).length : Nat) : Int)
        ≥ st.maxBufferLines
      ∨ st.bufferBytes + utf8Len (ensureNewline m) ≥ st.maxBufferBytes) by
    push_neg
    refine ⟨?_, by omega⟩
    simp only [List.length_append, List.length_singleton]
    push_cast
    omega)]

theorem writeMany_buffered (msgs : List (List Char)) :
    ∀ (st : WriterState) (now tz : Int) (freq : FileRotationFrequency),
    st.isEnabled = true → st.streamOpen = true → st.isRotating = false →
    FileWriter.getPeriodString now tz freq = st.currentPeriod →
    (st.buffer.length : Int) + msgs.length < st.maxBufferLines →
    st.bufferBytes + linesBytes (msgs.map ensureNewline) < st.maxBufferBytes →
    st.bytesWritten + linesBytes (msgs.map ensureNewline) < st.maxLogSizeBytes →
    FileWriter.writeMany st msgs now tz freq
      = { st with
          bytesWritten := st.bytesWritten + linesBytes (msgs.map ensureNewline),
          buffer := st.buffer ++ msgs.map ensureNewline,
          bufferBytes := st.bufferBytes + linesBytes (msgs.map ensureNewline) } := by
  induction msgs with
  | nil =>
    intro st now tz freq _ _ _ _ _ _ _
    show st = _
    ext <;> simp [linesBytes]
  | cons m ms ih =>
    intro st now tz freq hEn hStr hRot hPeriod hLines hBytes hSize
    have hnn := linesBytes_nonneg (ms.map ensureNewline)
    have hm := utf8Len_nonneg (ensureNewline m)
    have hcons : linesBytes ((m :: ms).map ensureNewline)
        = utf8Len (ensureNewline m) + linesBytes (ms.map ensureNewline) := by
      rw [List.map_cons, linesBytes_cons]
    have hlen : ((m :: ms).length : Int) = 1 + ms.length := by
      rw [List.length_cons]; push_cast; ring
    have hw := write_buffered st m now tz freq hEn hStr hRot hPeriod
      (by omega) (by omega) (by omega)
    show FileWriter.writeMany (FileWriter.write st m now tz freq) ms now tz freq = _
    rw [hw]
    rw [ih { st with
          bytesWritten := st.bytesWritten + utf8Len (ensureNewline m),
          buffer := st.buffer ++ [ensureNewline m],
          bufferBytes := st.bufferBytes + utf8Len (ensureNewline m) }
        now tz freq hEn hStr hRot hPeriod
        (by show ((st.buffer ++ [ensureNewline m]).length : Int) + (ms.length : Int)
              < st.maxBufferLines
            simp only [List.length_append, List.length_singleton]
            push_cast
            omega)
        (by show st.bufferBytes + utf8Len (ensureNewline m)
              + linesBytes (ms.map ensureNewline) < st.maxBufferBytes
            omega)
        (by show st.bytesWritten + utf8Len (ensureNewline m)
              + linesBytes (ms.map ensureNewline) < st.maxLogSizeBytes
            omega)]
    ext <;> simp [linesBytes_cons] <;> omega

theorem write_rotating (st : WriterState) (m : List Char) (now tz : Int)
    (freq : FileRotationFrequency)
    (hEn : st.isEnabled = true) (hStr : st.streamOpen = true)
    (hRot : st.isRotating = true) :
    FileWriter.write st m now tz freq
      = { st with pendingWrites := st.pendingWrites ++ [ensureNewline m] } := by
  simp only [FileWriter.write]
  rw [if_neg (by simp [hEn, hStr])]
  rw [if_pos (by simp [hRot])]

theorem writeMany_rotating (msgs : List (List Char)) :
    ∀ (st : WriterState) (now tz : Int) (freq : FileRotationFrequency),
    st.isEnabled = true → st.streamOpen = true → st.isRotating = true →
    FileWriter.writeMany st msgs now tz freq
      = { st with pendingWrites := st.pendingWrites ++ msgs.map ensureNewline } := by
  induction msgs with
  | nil =>
    intro st now tz freq _ _ _
    show st = _
    ext <;> simp
  | cons m ms ih =>
    intro st now tz freq hEn hStr hRot
    show FileWriter.writeMany (FileWriter.write st m now tz freq) ms now tz freq = _
    rw [write_rotating st m now tz freq hEn hStr hRot]
    rw [ih { st with pendingWrites := st.pendingWrites ++ [ensureNewline m] }
        now tz freq hEn hStr hRot]
    ext <;> simp

theorem pendFold_spec (p : List (List Char)) :
    ∀ (st : WriterState),
    p.foldl (fun s line =>
      { s with bytesWritten := s.bytesWritten + utf8Len line,
               buffer := s.buffer ++ [line],
               bufferBytes := s.bufferBytes + utf8Len line }) st
      = { st with bytesWritten := st.bytesWritten + linesBytes p,
                  buffer := st.buffer ++ p,
                  bufferBytes := st.bufferBytes + linesBytes p } := by
  induction p with
  | nil =>
    intro st
    show st = _
    ext <;> simp [linesBytes]
  | cons l ls ih =>
    intro st
    rw [List.foldl_cons, ih]
    ext <;> simp [linesBytes_cons] <;> omega

/-- C2: starting from an enabled, open, non-rotating writer with an empty
buffer, a sequence of writes below the line-count and byte thresholds (and
below the size-rotation trigger) accumulates exactly the newline-terminated
lines in the buffer in submission order; the forced flush then appends their
concatenation to the current file and empties the buffer.  Writes issued
while a rotation is in flight are queued on `pendingWrites` in submission
order, and `processPendingWrites` afterwards appends the whole queue to the
buffer in that order and clears the queue. -/
theorem claim_C2_buffer_flush_order (st stR : WriterState)
    (msgs queued : List (List Char)) (now tz : Int) (freq : FileRotationFrequency)
    (hEn : st.isEnabled = true) (hStr : st.streamOpen = true)
    (hRot : st.isRotating = false)
    (hBuf : st.buffer = []) (hBB : st.bufferBytes = 0)
    (hPeriod : FileWriter.getPeriodString now tz freq = st.currentPeriod)
    (hLines : (msgs.length : Int) < st.maxBufferLines)
    (hBytes : linesBytes (msgs.map ensureNewline) < st.maxBufferBytes)
    (hSize : st.bytesWritten + linesBytes (msgs.map ensureNewline)
      < st.maxLogSizeBytes)
    (hDisk : fsSizeOf st.files st.currentFilePath < st.maxLogSizeBytes)
    (hEnR : stR.isEnabled = true) (hStrR : stR.streamOpen = true)
    (hPendR : stR.pendingWrites ≠ [])
    (hLinesR : (stR.buffer.length : Int) + stR.pendingWrites.length
      < stR.maxBufferLines)
    (hBytesR : stR.bufferBytes + linesBytes stR.pendingWrites
      < stR.maxBufferBytes) :
    (FileWriter.writeMany st msgs now tz freq).buffer = msgs.map ensureNewline
    ∧ (FileWriter.flushBuffer (FileWriter.writeMany st msgs now tz freq)
        now tz freq).buffer = []
    ∧ fsLookup (FileWriter.flushBuffer (FileWriter.writeMany st msgs now tz freq)
          now tz freq).files st.currentFilePath
        = some ((fsLookup st.files st.currentFilePath).getD []
            ++ joinLines (msgs.map ensureNewline))
    ∧ (stR.isRotating = true →
        FileWriter.writeMany stR queued now tz freq
          = { stR with pendingWrites := stR.pendingWrites ++ queued.map ensureNewline })
    ∧ (FileWriter.processPendingWrites stR now tz freq).buffer
        = stR.buffer ++ stR.pendingWrites
    ∧ (FileWriter.processPendingWrites stR now tz freq).pendingWrites = [] := by
  have hW := writeMany_buffered msgs st now tz freq hEn hStr hRot hPeriod
    (by rw [hBuf]; simpa using hLines)
    (by rw [hBB]; simpa using hBytes)
    hSize
  have hFl : FileWriter.flushBuffer (FileWriter.writeMany st msgs now tz freq)
      now tz freq
      = { st with
          bytesWritten := st.bytesWritten + linesBytes (msgs.map ensureNewline),
          buffer := [], bufferBytes := 0,
          files := fsAppend st.files st.currentFilePath
            (joinLines (st.buffer ++ msgs.map ensureNewline)) } := by
    rw [hW]
    simp only [FileWriter.flushBuffer]
    rw [if_neg (by simp [hEn, hStr])]
    rw [if_neg (show ¬ (¬ ({ st with
          bytesWritten := st.bytesWritten + linesBytes (msgs.map ensureNewline),
          buffer := st.buffer ++ msgs.map ensureNewline,
          bufferBytes := st.bufferBytes + linesBytes (msgs.map ensureNewline)
        } : WriterState).isRotating = true
        ∧ fsSizeOf st.files st.currentFilePath ≥ st.maxLogSizeBytes) by
      intro h
      exact absurd h.2 (not_le.mpr hDisk))]
    simp only [FileWriter.flushChunk]
  have hPend : FileWriter.processPendingWrites stR now tz freq
      = { stR with
          bytesWritten := stR.bytesWritten + linesBytes stR.pendingWrites,
          buffer := stR.buffer ++ stR.pendingWrites,
          bufferBytes := stR.bufferBytes + linesBytes stR.pendingWrites,
          pendingWrites := [] } := by
    simp only [FileWriter.processPendingWrites]
    rw [if_neg hPendR]
    rw [pendFold_spec]
    rw [if_neg (show ¬ ((((stR.buffer ++ stR.pendingWrites).length : Nat) : Int)
          ≥ stR.maxBufferLines
        ∨ stR.bufferBytes + linesBytes stR.pendingWrites ≥ stR.maxBufferBytes) by
      push_neg
      refine ⟨?_, by omega⟩
      simp only [List.length_append]
      push_cast
      omega)]
  refine ⟨?_, ?_, ?_, ?_, ?_, ?_⟩
  · rw [hW]; simp [hBuf]
  · rw [hFl]
  · rw [hFl]
    simp only
    rw [fsLookup_fsAppend_self, hBuf]
    simp
  · intro hRotR
    exact writeMany_rotating queued stR now tz freq hEnR hStrR hRotR
  · rw [hPend]
  · rw [hPend]

/-- Concrete writer states for the C2 witness. -/
def c2StA : WriterState :=
  { files := [(['p', '.', 'l', 'o', 'g'], ['o', '\n'])],
    buffer := [], bufferBytes := 0, bytesWritten := 2,
    currentPeriod := FileWriter.getPeriodString 0 0 .daily,
    currentFilePath := ['p', '.', 'l', 'o', 'g'],
    streamOpen := true, isEnabled := true, isClosed := false,
    isFlushing := false, isRotating := false, pendingWrites := [],
    maxBufferLines := 10, maxBufferBytes := 1000, maxLogSizeBytes := 1000 }

def c2StB : WriterState :=
  { c2StA with isRotating := true,
               buffer := [['b', '\n']], bufferBytes := 2,
               pendingWrites := [['q', '\n']] }

/-- C2 witness: the buffering/flush/pending-queue theorem applied to concrete
two-message and one-queued-line states. -/
theorem claim_C2_buffer_flush_order_witness :
    (FileWriter.writeMany c2StA [['h', 'i'], ['y', 'o', '\n']] 0 0 .daily).buffer
        = [['h', 'i'], ['y', 'o', '\n']].map ensureNewline
    ∧ (FileWriter.flushBuffer
        (FileWriter.writeMany c2StA [['h', 'i'], ['y', 'o', '\n']] 0 0 .daily)
        0 0 .daily).buffer = []
    ∧ fsLookup (FileWriter.flushBuffer
          (FileWriter.writeMany c2StA [['h', 'i'], ['y', 'o', '\n']] 0 0 .daily)
          0 0 .daily).files c2StA.currentFilePath
        = some ((fsLookup c2StA.files c2StA.currentFilePath).getD []
            ++ joinLines ([['h', 'i'], ['y', 'o', '\n']].map ensureNewline))
    ∧ (c2StB.isRotating = true →
        FileWriter.writeMany c2StB [['z']] 0 0 .daily
          = { c2StB with
              pendingWrites := c2StB.pendingWrites ++ [['z']].map ensureNewline })
    ∧ (FileWriter.processPendingWrites c2StB 0 0 .daily).buffer
        = c2StB.buffer ++ c2StB.pendingWrites
    ∧ (FileWriter.processPendingWrites c2StB 0 0 .daily).pendingWrites = [] :=
  claim_C2_buffer_flush_order c2StA c2StB [['h', 'i'], ['y', 'o', '\n']] [['z']]
    0 0 .daily rfl rfl rfl rfl rfl rfl (by decide) (by decide) (by decide)
    (by decide) rfl rfl (by decide) (by decide) (by decide)

/- ### C1: size rotation never splits a line -/

theorem fsLookup_eq_none_iff (fs : FsDir) (n : List Char) :
    fsLookup fs n = none ↔ n ∉ fsNames fs := by
  induction fs with
  | nil => simp [fsLookup, fsNames]
  | cons e es ih =>
    by_cases h : e.1 = n
    · simp [fsLookup, fsNames, h]
    · have hne : ¬ n = e.1 := fun hx => h hx.symm
      simp [fsLookup, fsNames, h, hne, ih]

theorem fsLookup_fsEnsure_self (fs : FsDir) (n : List Char) :
    fsLookup (fsEnsure fs n) n = some ((fsLookup fs n).getD []) := by
  induction fs with
  | nil => simp [fsEnsure, fsLookup]
  | cons e es ih =>
    by_cases h : e.1 = n
    · simp [fsEnsure, fsLookup, h]
    · simp [fsEnsure, fsLookup, h, ih]

theorem fsLookup_fsEnsure_ne (fs : FsDir) (n m : List Char) (h : m ≠ n) :
    fsLookup (fsEnsure fs n) m = fsLookup fs m := by
  induction fs with
  | nil => simp [fsEnsure, fsLookup, h.symm]
  | cons e es ih =>
    by_cases he : e.1 = n
    · simp [fsEnsure, fsLookup, he, h.symm]
    · by_cases hm : e.1 = m
      · simp [fsEnsure, fsLookup, he, hm, h]
      · simp [fsEnsure, fsLookup, he, hm, ih]

theorem fsLookup_fsAppend_ne (fs : FsDir) (n c m : List Char) (h : m ≠ n) :
    fsLookup (fsAppend fs n c) m = fsLookup fs m := by
  induction fs with
  | nil => simp [fsAppend, fsLookup, h.symm]
  | cons e es ih =>
    by_cases he : e.1 = n
    · simp [fsAppend, fsLookup, he, h.symm]
    · by_cases hm : e.1 = m
      · simp [fsAppend, fsLookup, he, hm, h]
      · simp [fsAppend, fsLookup, he, hm, ih]

theorem overflowCandidate_inj (now tz : Int) :
    Function.Injective (FileWriter.overflowCandidate now tz) := by
  have c0 : FileWriter.overflowCandidate now tz 0
      = isoDateChars now ++ '~' :: pad2 (jsGetHours now tz)
          ++ '-' :: pad2 (jsGetMinutes now tz) ++ '-' :: pad2 (jsGetSeconds now tz)
          ++ dotLog := rfl
  have c1 : FileWriter.overflowCandidate now tz 1
      = isoDateChars now ++ '~' :: pad2 (jsGetHours now tz)
          ++ '-' :: pad2 (jsGetMinutes now tz) ++ '-' :: pad2 (jsGetSeconds now tz)
          ++ '~' :: pad3 (jsGetMilliseconds now tz) ++ dotLog := rfl
  have c2 : ∀ j : Nat, FileWriter.overflowCandidate now tz (Nat.succ (Nat.succ j))
      = isoDateChars now ++ '~' :: pad2 (jsGetHours now tz)
          ++ '-' :: pad2 (jsGetMinutes now tz) ++ '-' :: pad2 (jsGetSeconds now tz)
          ++ '~' :: pad3 (jsGetMilliseconds now tz) ++ '~' :: natDigits (j + 1)
          ++ dotLog := fun j => rfl
  intro k k' h
  cases k with
  | zero =>
    cases k' with
    | zero => rfl
    | succ k1 =>
      cases k1 with
      | zero =>
        rw [c0, c1] at h
        simp only [List.append_assoc, List.cons_append, List.append_right_inj,
          List.cons.injEq, true_and] at h
        simp [dotLog] at h
      | succ j =>
        rw [c0, c2 j] at h
        simp only [List.append_assoc, List.cons_append, List.append_right_inj,
          List.cons.injEq, true_and] at h
        simp [dotLog] at h
  | succ k1 =>
    cases k1 with
    | zero =>
      cases k' with
      | zero =>
        rw [c0, c1] at h
        simp only [List.append_assoc, List.cons_append, List.append_right_inj,
          List.cons.injEq, true_and] at h
        simp [dotLog] at h
      | succ k1' =>
        cases k1' with
        | zero => rfl
        | succ j =>
          rw [c1, c2 j] at h
          simp only [List.append_assoc, List.cons_append, List.append_right_inj,
            List.cons.injEq, true_and] at h
          simp [dotLog] at h
    | succ j =>
      cases k' with
      | zero =>
        rw [c0, c2 j] at h
        simp only [List.append_assoc, List.cons_append, List.append_right_inj,
          List.cons.injEq, true_and] at h
        simp [dotLog] at h
      | succ k1' =>
        cases k1' with
        | zero =>
          rw [c1, c2 j] at h
          simp only [List.append_assoc, List.cons_append, List.append_right_inj,
            List.cons.injEq, true_and] at h
          simp [dotLog] at h
        | succ j' =>
          rw [c2 j, c2 j'] at h
          simp only [List.append_assoc, List.cons_append, List.append_right_inj,
            List.cons.injEq, true_and] at h
          have h2 : natDigits (j + 1) ++ dotLog = natDigits (j' + 1) ++ dotLog := by
            simpa [List.append_assoc] using h
          have h3 := List.append_cancel_right h2
          have := natDigits_inj (j + 1) (j' + 1) h3
          omega

theorem getOverflowLogPathSync_not_mem (fs : FsDir) (now tz : Int) :
    FileWriter.getOverflowLogPathSync fs now tz ∉ fsNames fs := by
  have hex : ∃ k ∈ List.range ((fsNames fs).length + 2),
      (!((fsNames fs).contains (FileWriter.overflowCandidate now tz k))) = true := by
    by_contra hall
    push_neg at hall
    have hsub : (List.range ((fsNames fs).length + 2)).map
        (FileWriter.overflowCandidate now tz) ⊆ fsNames fs := by
      intro x hx
      rcases List.mem_map.mp hx with ⟨k, hk, rfl⟩
      have := hall k hk
      simpa using this
    have hnd : ((List.range ((fsNames fs).length + 2)).map
        (FileWriter.overflowCandidate now tz)).Nodup :=
      (List.nodup_range _).map (overflowCandidate_inj now tz)
    have hle := List.Subperm.length_le (List.subperm_of_subset hnd hsub)
    simp at hle
  show (match (List.range ((fsNames fs).length + 2)).find?
      (fun k => !((fsNames fs).contains (FileWriter.overflowCandidate now tz k))) with
    | some k => FileWriter.overflowCandidate now tz k
    | none => FileWriter.overflowCandidate now tz ((fsNames fs).length + 2))
    ∉ fsNames fs
  cases hfind : (List.range ((fsNames fs).length + 2)).find?
      (fun k => !((fsNames fs).contains (FileWriter.overflowCandidate now tz k))) with
  | none =>
    exfalso
    rcases hex with ⟨k, hk, hp⟩
    have := List.find?_eq_none.mp hfind k hk
    rw [hp] at this
    exact this rfl
  | some k =>
    have hp := List.find?_some hfind
    rw [Bool.not_eq_true'] at hp
    have hnotmem : FileWriter.overflowCandidate now tz k ∉ fsNames fs := by
      simpa using hp
    intro hmem
    exact hnotmem hmem

theorem findAvailable_spec (st : WriterState) (now tz : Int)
    (freq : FileRotationFrequency) (hMax : 0 < st.maxLogSizeBytes)
    (hMem : st.currentFilePath ∈ fsNames st.files) :
    FileWriter.findAvailableLogPath st true now tz freq ≠ st.currentFilePath
    ∧ fsSizeOf st.files (FileWriter.findAvailableLogPath st true now tz freq)
        < st.maxLogSizeBytes := by
  have hover : ∀ p, (sortRevStrings ((fsNames st.files).filter
        (fun f => FileWriter.isOverflowName freq st.currentPeriod f))).find?
        (fun f => (!(true && f == st.currentFilePath))
          && decide (fsSizeOf st.files f < st.maxLogSizeBytes)) = some p →
      p ≠ st.currentFilePath ∧ fsSizeOf st.files p < st.maxLogSizeBytes := by
    intro p hp
    have h := List.find?_some hp
    rw [Bool.and_eq_true] at h
    constructor
    · intro hcur
      rw [hcur] at h
      simp at h
    · exact of_decide_eq_true h.2
  have hfresh : FileWriter.getOverflowLogPathSync st.files now tz
        ≠ st.currentFilePath
      ∧ fsSizeOf st.files (FileWriter.getOverflowLogPathSync st.files now tz)
        < st.maxLogSizeBytes := by
    have hnm := getOverflowLogPathSync_not_mem st.files now tz
    constructor
    · intro hcur
      rw [hcur] at hnm
      exact hnm hMem
    · rw [show fsSizeOf st.files (FileWriter.getOverflowLogPathSync st.files now tz)
          = 0 from by
        unfold fsSizeOf
        rw [(fsLookup_eq_none_iff _ _).mpr hnm]]
      exact hMax
  by_cases hmain : st.currentFilePath = FileWriter.getLogPath st.currentPeriod
  · simp only [FileWriter.findAvailableLogPath]
    rw [if_pos ⟨trivial, hmain⟩]
    cases hfind : (sortRevStrings ((fsNames st.files).filter
        (fun f => FileWriter.isOverflowName freq st.currentPeriod f))).find?
        (fun f => (!(true && f == st.currentFilePath))
          && decide (fsSizeOf st.files f < st.maxLogSizeBytes)) with
    | some p => exact hover p hfind
    | none => exact hfresh
  · have hne : FileWriter.getLogPath st.currentPeriod ≠ st.currentFilePath :=
      fun hx => hmain hx.symm
    cases hlk : fsLookup st.files (FileWriter.getLogPath st.currentPeriod) with
    | none =>
      simp only [FileWriter.findAvailableLogPath]
      rw [if_neg (fun hx => hmain hx.2)]
      simp only [hlk]
      show FileWriter.getLogPath st.currentPeriod ≠ st.currentFilePath
        ∧ fsSizeOf st.files (FileWriter.getLogPath st.currentPeriod)
          < st.maxLogSizeBytes
      refine ⟨hne, ?_⟩
      unfold fsSizeOf
      rw [hlk]
      exact hMax
    | some content =>
      by_cases hsz : utf8Len content < st.maxLogSizeBytes
      · simp only [FileWriter.findAvailableLogPath]
        rw [if_neg (fun hx => hmain hx.2)]
        simp only [hlk]
        rw [if_pos hsz]
        show FileWriter.getLogPath st.currentPeriod ≠ st.currentFilePath
          ∧ fsSizeOf st.files (FileWriter.getLogPath st.currentPeriod)
            < st.maxLogSizeBytes
        refine ⟨hne, ?_⟩
        unfold fsSizeOf
        rw [hlk]
        exact hsz
      · simp only [FileWriter.findAvailableLogPath]
        rw [if_neg (fun hx => hmain hx.2)]
        simp only [hlk]
        rw [if_neg hsz]
        cases hfind : (sortRevStrings ((fsNames st.files).filter
            (fun f => FileWriter.isOverflowName freq st.currentPeriod f))).find?
            (fun f => (!(true && f == st.currentFilePath))
              && decide (fsSizeOf st.files f < st.maxLogSizeBytes)) with
        | some p => exact hover p hfind
        | none => exact hfresh

/-- C1: when appending the next line would bring the current file to or past
the size limit, `write` rotates: the writer moves to a different file, the
triggering line is queued through the rotation and re-buffered whole (never
split), the outgoing file is untouched by the write, and the next flush
appends the entire line to the new file while the old file still keeps
exactly its previous content. -/
theorem claim_C1_size_rotation_line_placement (st : WriterState) (msg : List Char)
    (now tz : Int) (freq : FileRotationFrequency)
    (hEn : st.isEnabled = true) (hStr : st.streamOpen = true)
    (hRot : st.isRotating = false) (hPend : st.pendingWrites = [])
    (hBuf : st.buffer = []) (hBB : st.bufferBytes = 0)
    (hPeriod : FileWriter.getPeriodString now tz freq = st.currentPeriod)
    (hTrig : st.bytesWritten + utf8Len (ensureNewline msg) ≥ st.maxLogSizeBytes)
    (hMem : st.currentFilePath ∈ fsNames st.files)
    (hML : 1 < st.maxBufferLines)
    (hMB : utf8Len (ensureNewline msg) < st.maxBufferBytes)
    (hMax : 0 < st.maxLogSizeBytes) :
    (FileWriter.write st msg now tz freq).currentFilePath ≠ st.currentFilePath
    ∧ (FileWriter.write st msg now tz freq).buffer = [ensureNewline msg]
    ∧ fsLookup (FileWriter.write st msg now tz freq).files st.currentFilePath
        = fsLookup st.files st.currentFilePath
    ∧ fsLookup (FileWriter.flushBuffer (FileWriter.write st msg now tz freq)
          now tz freq).files
          (FileWriter.write st msg now tz freq).currentFilePath
        = some ((fsLookup st.files
              (FileWriter.write st msg now tz freq).currentFilePath).getD []
            ++ ensureNewline msg)
    ∧ fsLookup (FileWriter.flushBuffer (FileWriter.write st msg now tz freq)
          now tz freq).files st.currentFilePath
        = fsLookup st.files st.currentFilePath := by
  have hP := findAvailable_spec
    { st with isRotating := true, pendingWrites := [ensureNewline msg],
              currentPeriod := st.currentPeriod } now tz freq hMax hMem
  have hw : FileWriter.write st msg now tz freq
      = { st with
          files := fsEnsure st.files (FileWriter.findAvailableLogPath
            { st with isRotating := true, pendingWrites := [ensureNewline msg],
                      currentPeriod := st.currentPeriod } true now tz freq),
          buffer := st.buffer ++ [ensureNewline msg],
          bufferBytes := st.bufferBytes + utf8Len (ensureNewline msg),
          bytesWritten := fsSizeOf st.files (FileWriter.findAvailableLogPath
            { st with isRotating := true, pendingWrites := [ensureNewline msg],
                      currentPeriod := st.currentPeriod } true now tz freq)
            + utf8Len (ensureNewline msg),
          currentPeriod := st.currentPeriod,
          currentFilePath := FileWriter.findAvailableLogPath
            { st with isRotating := true, pendingWrites := [ensureNewline msg],
                      currentPeriod := st.currentPeriod } true now tz freq,
          streamOpen := true,
          isRotating := false,
          pendingWrites := [] } := by
    simp only [FileWriter.write]
    rw [if_neg (by simp [hEn, hStr])]
    rw [if_neg (by simp [hRot])]
    rw [if_pos (Or.inr hTrig)]
    rw [hPend]
    simp only [List.nil_append]
    rw [decide_eq_true hTrig]
    simp only [FileWriter.rotateStream]
    rw [if_neg (fun h => h.2 hBuf)]
    rw [hPeriod]
    simp only [FileWriter.openStream]
    rw [if_neg (by simp [hEn])]
    simp only [FileWriter.processPendingWrites]
    rw [if_neg (by simp)]
    simp only [List.foldl_cons, List.foldl_nil]
    rw [if_neg (by
      push_neg
      constructor
      · show (((st.buffer ++ [ensureNewline msg]).length : Nat) : Int)
            < st.maxBufferLines
        rw [hBuf]
        simp only [List.nil_append, List.length_singleton]
        push_cast
        omega
      · show st.bufferBytes + utf8Len (ensureNewline msg) < st.maxBufferBytes
        omega)]
    rfl
  have hOldNe : st.currentFilePath ≠ FileWriter.findAvailableLogPath
      { st with isRotating := true, pendingWrites := [ensureNewline msg],
                currentPeriod := st.currentPeriod } true now tz freq :=
    fun h => hP.1 h.symm
  have hsz2 : fsSizeOf (fsEnsure st.files (FileWriter.findAvailableLogPath
      { st with isRotating := true, pendingWrites := [ensureNewline msg],
                currentPeriod := st.currentPeriod } true now tz freq))
      (FileWriter.findAvailableLogPath
      { st with isRotating := true, pendingWrites := [ensureNewline msg],
                currentPeriod := st.currentPeriod } true now tz freq)
      < st.maxLogSizeBytes := by
    unfold fsSizeOf
    rw [fsLookup_fsEnsure_self]
    cases hl : fsLookup st.files (FileWriter.findAvailableLogPath
        { st with isRotating := true, pendingWrites := [ensureNewline msg],
                  currentPeriod := st.currentPeriod } true now tz freq) with
    | none =>
      simp only [Option.getD_none]
      have hz : utf8Len [] = 0 := rfl
      omega
    | some c =>
      simp only [Option.getD_some]
      have h2 := hP.2
      unfold fsSizeOf at h2
      rw [hl] at h2
      exact h2
  have hjoin : joinLines (st.buffer ++ [ensureNewline msg]) = ensureNewline msg := by
    rw [hBuf]
    simp [joinLines]
  have hfb : FileWriter.flushBuffer (FileWriter.write st msg now tz freq)
      now tz freq
      = { st with
          files := fsAppend
            (fsEnsure st.files (FileWriter.findAvailableLogPath
              { st with isRotating := true, pendingWrites := [ensureNewline msg],
                        currentPeriod := st.currentPeriod } true now tz freq))
            (FileWriter.findAvailableLogPath
              { st with isRotating := true, pendingWrites := [ensureNewline msg],
                        currentPeriod := st.currentPeriod } true now tz freq)
            (ensureNewline msg),
          buffer := [], bufferBytes := 0,
          bytesWritten := fsSizeOf st.files (FileWriter.findAvailableLogPath
            { st with isRotating := true, pendingWrites := [ensureNewline msg],
                      currentPeriod := st.currentPeriod } true now tz freq)
            + utf8Len (ensureNewline msg),
          currentPeriod := st.currentPeriod,
          currentFilePath := FileWriter.findAvailableLogPath
            { st with isRotating := true, pendingWrites := [ensureNewline msg],
                      currentPeriod := st.currentPeriod } true now tz freq,
          streamOpen := true,
          isRotating := false,
          pendingWrites := [] } := by
    rw [hw]
    simp only [FileWriter.flushBuffer]
    rw [if_neg (by simp [hEn])]
    rw [if_neg (fun h => absurd h.2 (not_le.mpr hsz2))]
    simp only [FileWriter.flushChunk]
    rw [hjoin]
  refine ⟨?_, ?_, ?_, ?_, ?_⟩
  · rw [hw]
    exact hP.1
  · rw [hw]
    show st.buffer ++ [ensureNewline msg] = [ensureNewline msg]
    rw [hBuf]
    simp
  · rw [hw]
    exact fsLookup_fsEnsure_ne _ _ _ hOldNe
  · rw [hfb, hw]
    show fsLookup (fsAppend _ _ _) _ = _
    rw [fsLookup_fsAppend_self, fsLookup_fsEnsure_self]
    simp
  · rw [hfb]
    show fsLookup (fsAppend _ _ _) _ = _
    rw [fsLookup_fsAppend_ne _ _ _ _ hOldNe, fsLookup_fsEnsure_ne _ _ _ hOldNe]

/-- A concrete writer one line away from the size limit, for the C1 witness. -/
def c1St : WriterState :=
  { files := [(['1', '9', '7', '0', '-', '0', '1', '-', '0', '1', '.', 'l', 'o', 'g'],
      ['a', 'b', 'c', '\n'])],
    buffer := [], bufferBytes := 0, bytesWritten := 4,
    currentPeriod := ['1', '9', '7', '0', '-', '0', '1', '-', '0', '1'],
    currentFilePath := ['1', '9', '7', '0', '-', '0', '1', '-', '0', '1', '.', 'l', 'o', 'g'],
    streamOpen := true, isEnabled := true, isClosed := false,
    isFlushing := false, isRotating := false, pendingWrites := [],
    maxBufferLines := 10, maxBufferBytes := 1000, maxLogSizeBytes := 5 }

/-- C1 witness: the size-rotation theorem applied to a concrete writer whose
4-byte file has a 5-byte limit and receives a 3-byte line. -/
theorem claim_C1_size_rotation_line_placement_witness :
    (FileWriter.write c1St ['h', 'i'] 0 0 .daily).currentFilePath
        ≠ c1St.currentFilePath
    ∧ (FileWriter.write c1St ['h', 'i'] 0 0 .daily).buffer
        = [ensureNewline ['h', 'i']]
    ∧ fsLookup (FileWriter.write c1St ['h', 'i'] 0 0 .daily).files
          c1St.currentFilePath
        = fsLookup c1St.files c1St.currentFilePath
    ∧ fsLookup (FileWriter.flushBuffer (FileWriter.write c1St ['h', 'i'] 0 0 .daily)
          0 0 .daily).files
          (FileWriter.write c1St ['h', 'i'] 0 0 .daily).currentFilePath
        = some ((fsLookup c1St.files
              (FileWriter.write c1St ['h', 'i'] 0 0 .daily).currentFilePath).getD []
            ++ ensureNewline ['h', 'i'])
    ∧ fsLookup (FileWriter.flushBuffer (FileWriter.write c1St ['h', 'i'] 0 0 .daily)
          0 0 .daily).files c1St.currentFilePath
        = fsLookup c1St.files c1St.currentFilePath :=
  claim_C1_size_rotation_line_placement c1St ['h', 'i'] 0 0 .daily
    rfl rfl rfl rfl rfl rfl (by decide) (by decide) (by decide) (by decide)
    (by decide) (by decide)
